import Mathlib

/-!
Verification of the LEapsGL ECS core (entity traits, sparse-set storage,
component pools, World lifecycle, View iteration) against its
natural-language specification.

The definitions below are shallow embeddings of the C++ code in
`include/ecs.h` (entity traits), `include/core/Container.h` (sparse array,
component pools, View) and `include/core/World.h` (World lifecycle).
Machine integers are modelled as `Nat` with explicit `% 2^w` at every
point where the C++ performs a cast or where unsigned arithmetic wraps.
-/

/-! ## Definitions: the shallow embedding of the source -/
namespace Ent32

/-!
### Entity traits, 32-bit encoding

`__entity_traits<uint32_t>`: `entity_mask = 0xFFFFF` (20-bit index),
`version_mask = 0xFFF` (12-bit version), `version_type = uint16_t`,
`length = popcount entity_mask = 20`.
-/


def entity_mask : Nat := 0xFFFFF

def version_mask : Nat := 0xFFF

def invalid : Nat := 0xFFFFF

def length : Nat := 20

/-- Cast of `value_type` to `entity_type` (`uint32_t`). -/
def to_integral (v : Nat) : Nat := v % 2 ^ 32

def to_entity (v : Nat) : Nat := to_integral v &&& entity_mask

/-- `static_cast<version_type>(to_integral(value) >> length)` with
`version_type = uint16_t`. -/
def to_version (v : Nat) : Nat := (to_integral v >>> length) % 2 ^ 16

/-- `(entity & entity_mask) | (static_cast<entity_type>(version) << length)`,
all arithmetic in `uint32_t`; the version argument arrives as `uint16_t`. -/
def construct (e v : Nat) : Nat :=
  ((e % 2 ^ 32) &&& entity_mask) ||| (((v % 2 ^ 16) <<< length) % 2 ^ 32)

/-- `vers = to_version(value) + 1` (promotion of `uint16_t` to `int`: exact),
then `construct(to_entity(value), static_cast<version_type>(vers + (vers == version_mask)))`. -/
def next_version (v : Nat) : Nat :=
  construct (to_entity v)
    (to_version v + 1 + (if to_version v + 1 = version_mask then 1 else 0))

def is_valid (v : Nat) : Bool := to_entity v ≠ invalid

def is_same (a b : Nat) : Bool :=
  is_valid a && is_valid b && (to_integral a == to_integral b)
end Ent32
namespace Ent64

/-!
### Entity traits, 64-bit encoding

`__entity_traits<uint64_t>`: `entity_mask = 0xFFFFFFFF` (32-bit index),
`version_mask = 0xFFFFFFFF` (32-bit version), `version_type = uint32_t`,
`length = 32`.  This is the encoding used by `BaseEntityType = uint64_t`.
-/


def entity_mask : Nat := 0xFFFFFFFF

def version_mask : Nat := 0xFFFFFFFF

def invalid : Nat := 0xFFFFFFFF

def length : Nat := 32

def to_integral (v : Nat) : Nat := v % 2 ^ 64

def to_entity (v : Nat) : Nat := to_integral v &&& entity_mask

/-- `static_cast<version_type>(to_integral(value) >> length)` with
`version_type = uint32_t`. -/
def to_version (v : Nat) : Nat := (to_integral v >>> length) % 2 ^ 32

def construct (e v : Nat) : Nat :=
  ((e % 2 ^ 64) &&& entity_mask) ||| (((v % 2 ^ 32) <<< length) % 2 ^ 64)

/-- `vers = to_version(value) + 1` is `unsigned int` arithmetic and wraps
mod `2^32`; so does `vers + (vers == version_mask)`. -/
def next_version (v : Nat) : Nat :=
  construct (to_entity v)
    (((to_version v + 1) % 2 ^ 32 +
      (if (to_version v + 1) % 2 ^ 32 = version_mask then 1 else 0)) % 2 ^ 32)

def is_valid (v : Nat) : Bool := to_entity v ≠ invalid

def is_same (a b : Nat) : Bool :=
  is_valid a && is_valid b && (to_integral a == to_integral b)
end Ent64
namespace SA

/-!
### Sparse array (`sparse_array<Entity>` from `core/Container.h`)

Entities are the 64-bit encoding (`BaseEntityType = uint64_t`).  The sparse
table is a vector of lazily allocated pages of `1 << pageBits = 4096`
slots; pages are modelled as `Option (List Nat)` (`nullptr` = `none`).
Component payloads are modelled as `Nat`.
-/


def pageBits : Nat := 12

def pageMask : Nat := 4095

def pageSize : Nat := 4096

/-- `LEapsGL::null` converted to the 64-bit entity type:
`construct(invalid, invalid)`. -/
def nullE : Nat := Ent64.construct Ent64.invalid Ent64.invalid

/-- `null_entity::operator==(entity)` compares only the entity (index)
fields: `to_entity(entity) == to_entity(null)`. -/
def isNullE (x : Nat) : Bool := Ent64.to_entity x == Ent64.to_entity nullE

structure Sparse where
  sparse : List (Option (List Nat))
  packed : List Nat
deriving Repr, DecidableEq

def emptySparse : Sparse := ⟨[], []⟩

def bucketOf (e : Nat) : Nat := Ent64.to_entity e >>> pageBits

def offOf (e : Nat) : Nat := Ent64.to_entity e &&& pageMask

/-- `sparse_ptr`: `nullptr` when the page is missing, else the slot value. -/
def sparse_ptr (s : Sparse) (e : Nat) : Option Nat :=
  match s.sparse.getD (bucketOf e) none with
  | none => none
  | some pg => some (pg.getD (offOf e) nullE)

/-- `sparse_get`: unchecked read of the slot (page assumed allocated). -/
def sparse_get (s : Sparse) (e : Nat) : Nat :=
  match s.sparse.getD (bucketOf e) none with
  | none => nullE
  | some pg => pg.getD (offOf e) nullE

/-- `contains`: false on missing page, null slot (index-field comparison),
out-of-bounds decoded position, or packed mismatch. -/
def scontains (s : Sparse) (e : Nat) : Bool :=
  match sparse_ptr s e with
  | none => false
  | some sv =>
      !(isNullE sv) && decide (Ent64.to_entity sv < s.packed.length) &&
        (s.packed.getD (Ent64.to_entity sv) 0 == e)

/-- `assure_sparse_get` followed by assignment of `v` into the slot:
resize the page table if needed (filling with `nullptr`), allocate the
page if needed (filling with `LEapsGL::null`), then write `v`. -/
def assure_write (s : Sparse) (e : Nat) (v : Nat) : Sparse :=
  let b := bucketOf e
  let o := offOf e
  let sp1 := if s.sparse.length ≤ b
             then s.sparse ++ List.replicate (b + 1 - s.sparse.length) none
             else s.sparse
  let pg := match sp1.getD b none with
            | none => List.replicate pageSize nullE
            | some pg => pg
  { s with sparse := sp1.set b (some (pg.set o v)) }

/-- Write through a reference previously obtained by `sparse_get`:
no allocation happens (missing page would be undefined behaviour in the
C++; modelled as a no-op, never exercised by the theorems). -/
def write_slot (s : Sparse) (e : Nat) (v : Nat) : Sparse :=
  match s.sparse.getD (bucketOf e) none with
  | none => s
  | some pg => { s with sparse := s.sparse.set (bucketOf e) (some (pg.set (offOf e) v)) }

/-- `sparse_array::emplace`: write `construct(packed.size(), 0)` into the
(assured) slot, then append the entity to `packed`. -/
def semplace (s : Sparse) (e : Nat) : Sparse :=
  let s1 := assure_write s e (Ent64.construct s.packed.length 0)
  { s1 with packed := s1.packed ++ [e] }

/-- `sparse_array::remove`: swap-and-pop.  Reads the target and tail slot
values, swaps the two packed entries, swaps the two sparse slots, pops. -/
def sremove (s : Sparse) (e : Nat) : Bool × Sparse :=
  if !(scontains s e) then (false, s)
  else
    let lastE := s.packed.getD (s.packed.length - 1) 0
    let lastRaw := sparse_get s lastE
    let targetRaw := sparse_get s e
    let tpos := Ent64.to_entity targetRaw
    let lpos := Ent64.to_entity lastRaw
    let pv_t := s.packed.getD tpos 0
    let pv_l := s.packed.getD lpos 0
    let packed1 := (s.packed.set tpos pv_l).set lpos pv_t
    let s1 := write_slot { s with packed := packed1 } e lastRaw
    let s2 := write_slot s1 lastE targetRaw
    (true, { s2 with packed := s2.packed.dropLast })

def ssize (s : Sparse) : Nat := s.packed.length
end SA

/-!
### Default component pool (`DefaultComponentPool<Type, Entity>`)

A sparse array plus a parallel dense array of component values.
-/

structure DPool where
  s : SA.Sparse
  components : List Nat
deriving Repr, DecidableEq
namespace DPool

def empty : DPool := ⟨SA.emptySparse, []⟩

/-- `emplace(entt, arg)`: `super::emplace(entt); components.emplace_back(arg)`. -/
def emplace (p : DPool) (e v : Nat) : DPool :=
  { s := SA.semplace p.s e, components := p.components ++ [v] }

def dcontains (p : DPool) (e : Nat) : Bool := SA.scontains p.s e

/-- `get(entt) = components[(size_t)to_entity(sparse_get(entt))]`. -/
def get (p : DPool) (e : Nat) : Nat :=
  p.components.getD (Ent64.to_entity (SA.sparse_get p.s e)) 0

/-- `remove(entt)`: check `contains`, capture
`idx = (size_t)sparse_get(entt)` (the raw slot value), run the
sparse-array removal, then swap-and-pop the components array at `idx`. -/
def remove (p : DPool) (e : Nat) : Bool × DPool :=
  if !(SA.scontains p.s e) then (false, p)
  else
    let idx := SA.sparse_get p.s e
    let res := SA.sremove p.s e
    if !res.1 then (false, { p with s := res.2 })
    else
      let cv_i := p.components.getD idx 0
      let cv_b := p.components.getD (p.components.length - 1) 0
      let comps1 := (p.components.set idx cv_b).set (p.components.length - 1) cv_i
      (true, { s := res.2, components := comps1.dropLast })

def size (p : DPool) : Nat := p.s.packed.length
end DPool

/-!
### Memory-optimized component pool (`MemoryOptimizedComponentPool`)

Keeps its own packed entity / component arrays and resolves membership by
linear scan; its `emplace`/`remove`/`contains` never touch the inherited
sparse page table.
-/

structure MPool where
  sparse : List (Option (List Nat))
  packed : List Nat
  components : List Nat
deriving Repr, DecidableEq
namespace MPool

def empty : MPool := ⟨[], [], []⟩

/-- Linear scan, full bit-identical comparison. -/
def mcontains (p : MPool) (e : Nat) : Bool := p.packed.contains e

/-- First index holding `e` (callers guarantee presence). -/
def get_index (p : MPool) (e : Nat) : Nat := p.packed.findIdx (fun x => x == e)

/-- `emplace`: unconditional append to both arrays; no duplicate check,
no sparse access. -/
def emplace (p : MPool) (e v : Nat) : MPool :=
  { p with packed := p.packed ++ [e], components := p.components ++ [v] }

def get (p : MPool) (e : Nat) : Nat := p.components.getD (get_index p e) 0

/-- `remove`: linear-scan membership check, then swap-and-pop both arrays
at the first occurrence. -/
def remove (p : MPool) (e : Nat) : Bool × MPool :=
  if !(mcontains p e) then (false, p)
  else
    let idx := get_index p e
    let pv_i := p.packed.getD idx 0
    let pv_b := p.packed.getD (p.packed.length - 1) 0
    let packed1 := ((p.packed.set idx pv_b).set (p.packed.length - 1) pv_i).dropLast
    let cv_i := p.components.getD idx 0
    let cv_b := p.components.getD (p.components.length - 1) 0
    let comps1 := ((p.components.set idx cv_b).set (p.components.length - 1) cv_i).dropLast
    (true, { p with packed := packed1, components := comps1 })

def size (p : MPool) : Nat := p.packed.length
end MPool
namespace SA

/-- All pages of the sparse table have exactly `pageSize` slots. -/
def PagesWF (s : Sparse) : Prop :=
  ∀ pgo ∈ s.sparse, ∀ l, pgo = some l → l.length = pageSize

/-- The page that `assure_write` writes into (fresh null-filled page when
the slot's page is unallocated). -/
def pageFor (s : Sparse) (e : Nat) : List Nat :=
  match s.sparse.getD (bucketOf e) none with
  | none => List.replicate pageSize nullE
  | some pg => pg

/-- The reachable-state invariant of a sparse array: well-formed pages,
machine-width entities, pairwise distinct index fields, and every packed
entry's sparse slot holding its packed position (version 0). -/
def SInv (s : Sparse) : Prop :=
  PagesWF s ∧
  (∀ m ∈ s.packed, m < 2 ^ 64) ∧
  (∀ i j, i < j → j < s.packed.length →
    Ent64.to_entity (s.packed.getD i 0) ≠ Ent64.to_entity (s.packed.getD j 0)) ∧
  (∀ i, i < s.packed.length →
    sparse_ptr s (s.packed.getD i 0) = some (Ent64.construct i 0))

/-! ### Swap-and-pop removal under the invariant -/


/-- `packed.back()`. -/
def tailE (s : Sparse) : Nat := s.packed.getD (s.packed.length - 1) 0
end SA
namespace DPool

/-! ### Default component pool: invariant, emplace, remove -/


/-- Pool invariant: sparse-set invariant plus components/packed lockstep. -/
def DInv (P : DPool) : Prop :=
  SA.SInv P.s ∧ P.components.length = P.s.packed.length
end DPool

/-!
### Reachable pool states under the index-freshness discipline

`ReachD` captures exactly the op sequences in which every emplace carries a
machine-width entity whose index field differs from the index field of
every entity currently stored in the pool (one live handle per index).
-/

inductive ReachD : DPool → Prop
  | empty : ReachD DPool.empty
  | emplace {P : DPool} (e v : Nat) : ReachD P → e < 2 ^ 64 →
      (∀ m ∈ P.s.packed, Ent64.to_entity m ≠ Ent64.to_entity e) →
      ReachD (DPool.emplace P e v)
  | remove {P : DPool} (e : Nat) : ReachD P → ReachD (DPool.remove P e).2

def c1PoolW : DPool := DPool.emplace (DPool.emplace DPool.empty 1 10) 2 20

/-! ### Flag pool (plain sparse array) reachability -/

inductive ReachS : SA.Sparse → Prop
  | empty : ReachS SA.emptySparse
  | emplace {S : SA.Sparse} (e : Nat) : ReachS S → e < 2 ^ 64 →
      (∀ m ∈ S.packed, Ent64.to_entity m ≠ Ent64.to_entity e) →
      ReachS (SA.semplace S e)
  | remove {S : SA.Sparse} (e : Nat) : ReachS S → ReachS (SA.sremove S e).2

def c8PoolW : DPool := DPool.emplace DPool.empty 7 42

def c8SparseW : SA.Sparse := SA.semplace SA.emptySparse 1

/-!
### C5: `contains` refinement against the spec's case analysis
-/

/-- Modelled from the spec's words (§4.2 `contains`): false if the page is
unallocated, the slot holds the null sentinel (per §3, the null sentinel is
an index field equal to the all-ones pattern), the decoded packed position
is out of bounds, or `packed[pos]` is not bit-identical to `e`; true
exactly when none of these hold. -/
def scontainsSpec (s : SA.Sparse) (e : Nat) : Bool :=
  match SA.sparse_ptr s e with
  | none => false
  | some sv =>
      if Ent64.to_entity sv = Ent64.entity_mask then false
      else if ¬ (Ent64.to_entity sv < s.packed.length) then false
      else s.packed.getD (Ent64.to_entity sv) 0 == e

/-!
### World (`World<Entity = uint64_t>` from `core/World.h`)

The entity lifecycle state (`entityList`, embedded free list) plus one
default component pool standing for the type-keyed pool map.
-/

structure WorldM where
  entityList : List Nat
  free_entity_num : Nat
  free_entity_id : Nat
  pool : DPool
deriving Repr, DecidableEq
namespace WorldM

def size (w : WorldM) : Nat := w.entityList.length - w.free_entity_num

/-- `Create()`: pop the free list head, or append a fresh slot at
version 0. -/
def Create (w : WorldM) : Nat × WorldM :=
  if w.free_entity_num = 0 then
    (Ent64.construct w.entityList.length 0,
     { w with entityList :=
        w.entityList ++ [Ent64.construct w.entityList.length 0] })
  else
    (Ent64.construct w.free_entity_id
      (Ent64.to_version (w.entityList.getD w.free_entity_id 0)),
     { w with
        entityList := w.entityList.set w.free_entity_id
          (Ent64.construct w.free_entity_id
            (Ent64.to_version (w.entityList.getD w.free_entity_id 0))),
        free_entity_num := w.free_entity_num - 1,
        free_entity_id := Ent64.to_entity (w.entityList.getD w.free_entity_id 0) })

/-- `Destroy(entt)`: remove from every pool, link the slot into the free
list (only when the free list was non-empty, per the post-increment
check), bump the stored version, and make the slot the free head. -/
def Destroy (w : WorldM) (e : Nat) : WorldM :=
  { entityList :=
      (if 0 < w.free_entity_num
       then w.entityList.set (Ent64.to_entity e)
         (Ent64.construct w.free_entity_id (Ent64.to_version e))
       else w.entityList).set (Ent64.to_entity e)
        (Ent64.next_version
          ((if 0 < w.free_entity_num
            then w.entityList.set (Ent64.to_entity e)
              (Ent64.construct w.free_entity_id (Ent64.to_version e))
            else w.entityList).getD (Ent64.to_entity e) 0)),
    free_entity_num := w.free_entity_num + 1,
    free_entity_id := Ent64.to_entity e,
    pool := (DPool.remove w.pool e).2 }

def emplaceW (w : WorldM) (e v : Nat) : WorldM :=
  { w with pool := DPool.emplace w.pool e v }

def containsW (w : WorldM) (e : Nat) : Bool := DPool.dcontains w.pool e

def queryW (w : WorldM) (e : Nat) : Nat := DPool.get w.pool e
end WorldM

/-!
### The view over component pools

`View<W_ComponentPool<...>, Filter<...>>` holds the required pools
(`containers_`) and the filter pools (`filters_`); all pools here are
default pools over the same 64-bit entity type, so the tuple of pools
becomes a list. Pointer identity of the C++ pool objects is modelled by
position: the driver chosen by `setSmallestComponentPoolPointer` is kept
as an index into `containers_ ++ filters_`.
-/

structure ViewM where
  containers_ : List DPool
  filters_ : List DPool
namespace ViewM

def pools (V : ViewM) : List DPool := V.containers_ ++ V.filters_

/-- `setSmallestComponentPoolPointer`: `view` starts at the first required
pool, then every required pool and every filter pool in turn replaces it
exactly when its `size()` is strictly smaller (`components->size() <
view->size() ? components : view`); the result is the index of the chosen
pool within `containers_ ++ filters_`. -/
def driverIdx (V : ViewM) : Nat :=
  (List.range (pools V).length).foldl
    (fun acc i =>
      if DPool.size ((pools V).getD i DPool.empty)
          < DPool.size ((pools V).getD acc DPool.empty) then i else acc) 0

def driver (V : ViewM) : DPool := (pools V).getD (driverIdx V) DPool.empty

/-- `View::each` through `pick_and_each`: iterate the driver pool's packed
array in order and keep an entity when every required pool other than the
driver contains it (`BaseIndex == Index || contains(entt)`) and every
filter pool contains it, with the symmetric driver skip when the driver
is a filter pool. -/
def eachList (V : ViewM) : List Nat :=
  if driverIdx V < V.containers_.length then
    (driver V).s.packed.filter (fun entt =>
      ((List.range V.containers_.length).all (fun i =>
        (i == driverIdx V)
          || DPool.dcontains (V.containers_.getD i DPool.empty) entt))
      && V.filters_.all (fun f => DPool.dcontains f entt))
  else
    (driver V).s.packed.filter (fun entt =>
      (V.containers_.all (fun c => DPool.dcontains c entt))
      && ((List.range V.filters_.length).all (fun j =>
        (j + V.containers_.length == driverIdx V)
          || DPool.dcontains (V.filters_.getD j DPool.empty) entt)))
end ViewM

def c4A : DPool :=
  DPool.emplace (DPool.emplace (DPool.emplace (DPool.emplace
    (DPool.emplace DPool.empty 1 11) 2 12) 3 13) 4 14) 5 15

def c4B : DPool :=
  DPool.emplace (DPool.emplace (DPool.emplace DPool.empty 2 22) 3 23) 4 24

def c4C : DPool :=
  DPool.emplace (DPool.emplace (DPool.emplace DPool.empty 3 33) 4 34) 5 35

def c4ViewW : ViewM := ⟨[c4A, c4B, c4C], []⟩

/-! ## Theorems -/

/-! ### Generic bit-arithmetic helpers -/

theorem shiftRight_or_distrib (a b k : Nat) :
    (a ||| b) >>> k = (a >>> k) ||| (b >>> k) := by
  apply Nat.eq_of_testBit_eq
  intro i
  simp [Nat.testBit_shiftRight, Nat.testBit_or]
namespace Ent32

theorem entity_mask_eq32 : entity_mask = 2 ^ 20 - 1 := by norm_num [entity_mask]

theorem to_entity_eq_mod32 (v : Nat) : to_entity v = v % 2 ^ 20 := by
  unfold to_entity to_integral
  rw [entity_mask_eq32, Nat.and_pow_two_sub_one_eq_mod,
    Nat.mod_mod_of_dvd _ (Nat.pow_dvd_pow 2 (by norm_num))]

theorem to_entity_lt32 (v : Nat) : to_entity v < 2 ^ 20 := by
  rw [to_entity_eq_mod32]; exact Nat.mod_lt _ (by norm_num)

theorem to_version_eq32 (v : Nat) : to_version v = v % 2 ^ 32 / 2 ^ 20 := by
  unfold to_version to_integral length
  rw [Nat.shiftRight_eq_div_pow]
  apply Nat.mod_eq_of_lt
  apply Nat.div_lt_of_lt_mul
  calc v % 2 ^ 32 < 2 ^ 32 := Nat.mod_lt _ (by norm_num)
    _ ≤ 2 ^ 20 * 2 ^ 16 := by norm_num

theorem to_version_lt32 (v : Nat) : to_version v < 2 ^ 12 := by
  rw [to_version_eq32]
  apply Nat.div_lt_of_lt_mul
  calc v % 2 ^ 32 < 2 ^ 32 := Nat.mod_lt _ (by norm_num)
    _ ≤ 2 ^ 20 * 2 ^ 12 := by norm_num

theorem construct_lt32 (e v : Nat) : construct e v < 2 ^ 32 := by
  unfold construct
  exact Nat.or_lt_two_pow
    (Nat.lt_of_le_of_lt Nat.and_le_left (Nat.mod_lt _ (by norm_num)))
    (Nat.mod_lt _ (by norm_num))

theorem to_entity_construct32 (e v : Nat) :
    to_entity (construct e v) = e % 2 ^ 20 := by
  unfold to_entity to_integral
  rw [Nat.mod_eq_of_lt (construct_lt32 e v)]
  unfold construct
  rw [entity_mask_eq32, Nat.and_distrib_right]
  have hA : ((e % 2 ^ 32) &&& (2 ^ 20 - 1)) &&& (2 ^ 20 - 1) = e % 2 ^ 20 := by
    rw [Nat.and_pow_two_sub_one_eq_mod, Nat.and_pow_two_sub_one_eq_mod,
      Nat.mod_mod_of_dvd _ dvd_rfl,
      Nat.mod_mod_of_dvd _ (Nat.pow_dvd_pow 2 (by norm_num))]
  have hB : (((v % 2 ^ 16) <<< length) % 2 ^ 32) &&& (2 ^ 20 - 1) = 0 := by
    rw [Nat.and_pow_two_sub_one_eq_mod]
    have hd : 2 ^ 20 ∣ ((v % 2 ^ 16) <<< length) % 2 ^ 32 := by
      rw [Nat.dvd_mod_iff (Nat.pow_dvd_pow 2 (by norm_num))]
      rw [Nat.shiftLeft_eq]
      exact Dvd.intro _ (mul_comm _ _)
    exact Nat.mod_eq_zero_of_dvd hd
  rw [hA, hB, Nat.or_zero]

theorem to_version_construct32 (e v : Nat) :
    to_version (construct e v) = v % 2 ^ 12 := by
  unfold to_version to_integral
  rw [Nat.mod_eq_of_lt (construct_lt32 e v)]
  unfold construct length
  rw [shiftRight_or_distrib]
  have hA : ((e % 2 ^ 32) &&& entity_mask) >>> 20 = 0 := by
    rw [Nat.shiftRight_eq_div_pow]
    apply Nat.div_eq_of_lt
    exact Nat.lt_of_le_of_lt Nat.and_le_right (by norm_num [entity_mask])
  have hB : (((v % 2 ^ 16) <<< 20) % 2 ^ 32) >>> 20 = v % 2 ^ 12 := by
    rw [Nat.shiftLeft_eq, Nat.shiftRight_eq_div_pow]
    have h32 : (2 : Nat) ^ 32 = 2 ^ 20 * 2 ^ 12 := by norm_num
    rw [mul_comm (v % 2 ^ 16) (2 ^ 20), h32, Nat.mul_mod_mul_left,
      Nat.mul_div_cancel_left _ (by norm_num : (0:Nat) < 2 ^ 20),
      Nat.mod_mod_of_dvd _ (Nat.pow_dvd_pow 2 (by norm_num))]
  rw [hA, hB, Nat.zero_or]
  exact Nat.mod_eq_of_lt (Nat.lt_of_lt_of_le (Nat.mod_lt _ (by norm_num)) (by norm_num))
end Ent32
namespace Ent64

theorem entity_mask_eq : entity_mask = 2 ^ 32 - 1 := by norm_num [entity_mask]

theorem to_entity_eq_mod (v : Nat) : to_entity v = v % 2 ^ 32 := by
  unfold to_entity to_integral
  rw [entity_mask_eq, Nat.and_pow_two_sub_one_eq_mod,
    Nat.mod_mod_of_dvd _ (Nat.pow_dvd_pow 2 (by norm_num))]

theorem to_entity_lt (v : Nat) : to_entity v < 2 ^ 32 := by
  rw [to_entity_eq_mod]; exact Nat.mod_lt _ (by norm_num)

theorem to_version_eq (v : Nat) : to_version v = v % 2 ^ 64 / 2 ^ 32 := by
  unfold to_version to_integral length
  rw [Nat.shiftRight_eq_div_pow]
  apply Nat.mod_eq_of_lt
  apply Nat.div_lt_of_lt_mul
  calc v % 2 ^ 64 < 2 ^ 64 := Nat.mod_lt _ (by norm_num)
    _ ≤ 2 ^ 32 * 2 ^ 32 := by norm_num

theorem to_version_lt (v : Nat) : to_version v < 2 ^ 32 := by
  rw [to_version_eq]
  apply Nat.div_lt_of_lt_mul
  calc v % 2 ^ 64 < 2 ^ 64 := Nat.mod_lt _ (by norm_num)
    _ ≤ 2 ^ 32 * 2 ^ 32 := by norm_num

theorem construct_lt (e v : Nat) : construct e v < 2 ^ 64 := by
  unfold construct
  exact Nat.or_lt_two_pow
    (Nat.lt_of_le_of_lt Nat.and_le_left (Nat.mod_lt _ (by norm_num)))
    (Nat.mod_lt _ (by norm_num))

theorem to_entity_construct (e v : Nat) :
    to_entity (construct e v) = e % 2 ^ 32 := by
  unfold to_entity to_integral
  rw [Nat.mod_eq_of_lt (construct_lt e v)]
  unfold construct
  rw [entity_mask_eq, Nat.and_distrib_right]
  have hA : ((e % 2 ^ 64) &&& (2 ^ 32 - 1)) &&& (2 ^ 32 - 1) = e % 2 ^ 32 := by
    rw [Nat.and_pow_two_sub_one_eq_mod, Nat.and_pow_two_sub_one_eq_mod,
      Nat.mod_mod_of_dvd _ dvd_rfl,
      Nat.mod_mod_of_dvd _ (Nat.pow_dvd_pow 2 (by norm_num))]
  have hB : (((v % 2 ^ 32) <<< length) % 2 ^ 64) &&& (2 ^ 32 - 1) = 0 := by
    rw [Nat.and_pow_two_sub_one_eq_mod]
    have hd : 2 ^ 32 ∣ ((v % 2 ^ 32) <<< length) % 2 ^ 64 := by
      rw [Nat.dvd_mod_iff (Nat.pow_dvd_pow 2 (by norm_num))]
      rw [Nat.shiftLeft_eq]
      exact Dvd.intro _ (mul_comm _ _)
    exact Nat.mod_eq_zero_of_dvd hd
  rw [hA, hB, Nat.or_zero]

theorem to_version_construct (e v : Nat) :
    to_version (construct e v) = v % 2 ^ 32 := by
  unfold to_version to_integral
  rw [Nat.mod_eq_of_lt (construct_lt e v)]
  unfold construct length
  rw [shiftRight_or_distrib]
  have hA : ((e % 2 ^ 64) &&& entity_mask) >>> 32 = 0 := by
    rw [Nat.shiftRight_eq_div_pow]
    apply Nat.div_eq_of_lt
    exact Nat.lt_of_le_of_lt Nat.and_le_right (by norm_num [entity_mask])
  have hB : (((v % 2 ^ 32) <<< 32) % 2 ^ 64) >>> 32 = v % 2 ^ 32 := by
    rw [Nat.shiftLeft_eq, Nat.shiftRight_eq_div_pow]
    have h64 : (2 : Nat) ^ 64 = 2 ^ 32 * 2 ^ 32 := by norm_num
    rw [mul_comm (v % 2 ^ 32) (2 ^ 32), h64, Nat.mul_mod_mul_left,
      Nat.mul_div_cancel_left _ (by norm_num : (0:Nat) < 2 ^ 32),
      Nat.mod_mod_of_dvd _ dvd_rfl]
  rw [hA, hB, Nat.zero_or]
  exact Nat.mod_eq_of_lt (Nat.mod_lt _ (by norm_num))
end Ent64

/--
C6: in both supported encodings (32-bit: 20-bit index / 12-bit version;
64-bit: 32-bit index / 32-bit version), `next_version` keeps the index
field unchanged and sets the version field to `version(v) + 1` (reduced
into the version field), except that when the incremented version would
equal the all-ones `version_mask` the resulting version field is `0`,
skipping the sentinel version.
-/
theorem c6_next_version_skips_sentinel (v : Nat) :
    (Ent32.to_entity (Ent32.next_version v) = Ent32.to_entity v ∧
     Ent32.to_version (Ent32.next_version v) =
       (if Ent32.to_version v + 1 = Ent32.version_mask then 0
        else (Ent32.to_version v + 1) % (Ent32.version_mask + 1))) ∧
    (Ent64.to_entity (Ent64.next_version v) = Ent64.to_entity v ∧
     Ent64.to_version (Ent64.next_version v) =
       (if Ent64.to_version v + 1 = Ent64.version_mask then 0
        else (Ent64.to_version v + 1) % (Ent64.version_mask + 1))) := by
  refine ⟨⟨?_, ?_⟩, ⟨?_, ?_⟩⟩
  · rw [Ent32.next_version, Ent32.to_entity_construct32,
      Nat.mod_eq_of_lt (Ent32.to_entity_lt32 v)]
  · rw [Ent32.next_version, Ent32.to_version_construct32]
    have hV := Ent32.to_version_lt32 v
    have hm : Ent32.version_mask = 4095 := by norm_num [Ent32.version_mask]
    rw [hm]
    split_ifs with h <;> omega
  · rw [Ent64.next_version, Ent64.to_entity_construct,
      Nat.mod_eq_of_lt (Ent64.to_entity_lt v)]
  · rw [Ent64.next_version, Ent64.to_version_construct]
    have hV := Ent64.to_version_lt v
    have hm : Ent64.version_mask = 4294967295 := by norm_num [Ent64.version_mask]
    rw [hm]
    by_cases hA : Ent64.to_version v + 1 = 2 ^ 32
    · have h1 : (Ent64.to_version v + 1) % 2 ^ 32 = 0 := by omega
      rw [h1]
      have hL : ((0 + if (0:Nat) = 4294967295 then 1 else 0) % 2 ^ 32) % 2 ^ 32 = 0 := by
        norm_num
      rw [hL]
      split_ifs with h
      · omega
      · omega
    · have h1 : (Ent64.to_version v + 1) % 2 ^ 32 = Ent64.to_version v + 1 := by omega
      rw [h1]
      split_ifs <;> omega
namespace SA

/-! ### Sparse-array helper lemmas -/


theorem nullE_to_entity : Ent64.to_entity nullE = Ent64.entity_mask := by
  unfold nullE
  rw [Ent64.to_entity_construct]
  norm_num [Ent64.invalid, Ent64.entity_mask]

theorem isNullE_iff (x : Nat) :
    isNullE x = true ↔ Ent64.to_entity x = Ent64.entity_mask := by
  unfold isNullE
  rw [nullE_to_entity]
  exact beq_iff_eq

theorem offOf_eq (e : Nat) : offOf e = Ent64.to_entity e % 4096 := by
  unfold offOf pageMask
  have h : (4095 : Nat) = 2 ^ 12 - 1 := by norm_num
  rw [h, Nat.and_pow_two_sub_one_eq_mod]

theorem bucketOf_eq (e : Nat) : bucketOf e = Ent64.to_entity e / 4096 := by
  unfold bucketOf pageBits
  rw [Nat.shiftRight_eq_div_pow]

theorem offOf_lt (e : Nat) : offOf e < 4096 := by
  rw [offOf_eq]; exact Nat.mod_lt _ (by norm_num)

theorem idx_eq_of_bucket_off (e f : Nat) (hb : bucketOf e = bucketOf f)
    (ho : offOf e = offOf f) : Ent64.to_entity e = Ent64.to_entity f := by
  rw [bucketOf_eq, bucketOf_eq] at hb
  rw [offOf_eq, offOf_eq] at ho
  omega

theorem pagesWF_empty : PagesWF emptySparse := by
  intro pgo h
  simp [emptySparse] at h

theorem sparse_get_of_ptr {s : Sparse} {e w : Nat}
    (h : sparse_ptr s e = some w) : sparse_get s e = w := by
  unfold sparse_ptr at h
  unfold sparse_get
  cases hm : s.sparse.getD (bucketOf e) none with
  | none => rw [hm] at h; exact absurd h (by simp)
  | some pg =>
    rw [hm] at h
    exact Option.some.inj h

theorem getD_length_pos {α : Type} {l : List (Option α)} {b : Nat} {x : α}
    (h : l.getD b none = some x) : b < l.length := by
  by_contra hc
  rw [List.getD_eq_getElem?_getD, List.getElem?_eq_none (by omega)] at h
  simp at h

theorem getD_append_replicate {α : Type} (l : List (Option α)) (k b : Nat) :
    (l ++ List.replicate k none).getD b none = l.getD b none := by
  by_cases h : b < l.length
  · rw [List.getD_eq_getElem?_getD, List.getElem?_append_left h,
      ← List.getD_eq_getElem?_getD]
  · rw [List.getD_eq_getElem?_getD (l := l), List.getElem?_eq_none (by omega)]
    by_cases h2 : b < l.length + k
    · rw [List.getD_eq_getElem?_getD, List.getElem?_append_right (by omega)]
      rw [List.getElem?_replicate, if_pos (by omega)]
      rfl
    · rw [List.getD_eq_getElem?_getD, List.getElem?_eq_none (by simp [List.length_replicate]; omega)]

theorem pageFor_length {s : Sparse} (hw : PagesWF s) (e : Nat) :
    (pageFor s e).length = pageSize := by
  unfold pageFor
  cases hm : s.sparse.getD (bucketOf e) none with
  | none => simp
  | some pg =>
    have hmem : (some pg) ∈ s.sparse := by
      apply List.getElem?_mem
      have := List.getD_eq_getElem?_getD s.sparse (bucketOf e) none
      rw [hm] at this
      cases hq : s.sparse[bucketOf e]? with
      | none => rw [hq] at this; simp at this
      | some o => rw [hq] at this; simp at this; rw [this]
    exact hw _ hmem pg rfl

theorem assure_write_sparse_getD (s : Sparse) (e v b : Nat) :
    (assure_write s e v).sparse.getD b none =
      if b = bucketOf e
      then some ((pageFor s e).set (offOf e) v)
      else s.sparse.getD b none := by
  unfold assure_write pageFor
  simp only
  set sp1 := if s.sparse.length ≤ bucketOf e
             then s.sparse ++ List.replicate (bucketOf e + 1 - s.sparse.length) none
             else s.sparse with hsp1
  have hsp1getD : ∀ b', sp1.getD b' none = s.sparse.getD b' none := by
    intro b'
    rw [hsp1]
    split
    · exact getD_append_replicate _ _ _
    · rfl
  have hblen : bucketOf e < sp1.length := by
    rw [hsp1]
    split
    · rw [List.length_append, List.length_replicate]; omega
    · omega
  by_cases hb : b = bucketOf e
  · rw [if_pos hb, hb, List.getD_eq_getElem?_getD, List.getElem?_set_self hblen]
    rw [hsp1getD (bucketOf e)]
    rfl
  · rw [if_neg hb, List.getD_eq_getElem?_getD, List.getElem?_set_ne (by omega),
      ← List.getD_eq_getElem?_getD, hsp1getD]

theorem assure_write_packed (s : Sparse) (e v : Nat) :
    (assure_write s e v).packed = s.packed := rfl

theorem write_slot_sparse_getD (s : Sparse) (e v b : Nat) :
    (write_slot s e v).sparse.getD b none =
      match s.sparse.getD (bucketOf e) none with
      | none => s.sparse.getD b none
      | some pg =>
          if b = bucketOf e then some (pg.set (offOf e) v)
          else s.sparse.getD b none := by
  unfold write_slot
  cases hm : s.sparse.getD (bucketOf e) none with
  | none => rfl
  | some pg =>
    simp only
    by_cases hb : b = bucketOf e
    · rw [if_pos hb, hb, List.getD_eq_getElem?_getD,
        List.getElem?_set_self (getD_length_pos hm)]
      rfl
    · rw [if_neg hb, List.getD_eq_getElem?_getD, List.getElem?_set_ne (by omega),
        ← List.getD_eq_getElem?_getD]

theorem write_slot_packed (s : Sparse) (e v : Nat) :
    (write_slot s e v).packed = s.packed := by
  unfold write_slot
  cases hm : s.sparse.getD (bucketOf e) none <;> rfl

theorem getD_eq_getElem {α : Type} (l : List α) (d : α) {i : Nat}
    (h : i < l.length) : l.getD i d = l[i] := by
  rw [List.getD_eq_getElem?_getD, List.getElem?_eq_getElem h]
  rfl

theorem getD_some_mem {α : Type} {l : List (Option α)} {b : Nat} {x : α}
    (h : l.getD b none = some x) : some x ∈ l := by
  rw [List.getD_eq_getElem?_getD] at h
  cases hq : l[b]? with
  | none => rw [hq] at h; simp at h
  | some o =>
    rw [hq] at h
    simp only [Option.getD_some] at h
    rw [h] at hq
    exact List.getElem?_mem hq

theorem isNullE_false_iff (x : Nat) :
    isNullE x = false ↔ Ent64.to_entity x ≠ Ent64.entity_mask := by
  constructor
  · intro h hmask
    rw [(isNullE_iff x).2 hmask] at h
    exact absurd h (by simp)
  · intro h
    cases hb : isNullE x with
    | false => rfl
    | true => exact absurd ((isNullE_iff x).1 hb) h

theorem sparse_ptr_assure_write_same {s : Sparse} (hw : PagesWF s) {e f v : Nat}
    (hidx : Ent64.to_entity f = Ent64.to_entity e) :
    sparse_ptr (assure_write s e v) f = some v := by
  have hb : bucketOf f = bucketOf e := by rw [bucketOf_eq, bucketOf_eq, hidx]
  have ho : offOf f = offOf e := by rw [offOf_eq, offOf_eq, hidx]
  unfold sparse_ptr
  rw [hb, assure_write_sparse_getD, if_pos rfl]
  show some (((pageFor s e).set (offOf e) v).getD (offOf f) nullE) = some v
  have hlt : offOf e < ((pageFor s e)).length := by
    rw [pageFor_length hw]
    exact Nat.lt_of_lt_of_le (offOf_lt e) (by norm_num [pageSize])
  rw [ho, List.getD_eq_getElem?_getD, List.getElem?_set_self hlt]
  rfl

theorem sparse_ptr_assure_write_other {s : Sparse} {e f v w : Nat}
    (hidx : Ent64.to_entity f ≠ Ent64.to_entity e)
    (hprev : sparse_ptr s f = some w) :
    sparse_ptr (assure_write s e v) f = some w := by
  unfold sparse_ptr at hprev ⊢
  rw [assure_write_sparse_getD]
  by_cases hb : bucketOf f = bucketOf e
  · rw [if_pos hb]
    have ho : offOf f ≠ offOf e := fun ho => hidx (idx_eq_of_bucket_off f e hb ho)
    cases hm : s.sparse.getD (bucketOf f) none with
    | none => rw [hm] at hprev; exact absurd hprev (by simp)
    | some pg =>
      rw [hm] at hprev
      have hpf : pageFor s e = pg := by
        unfold pageFor
        rw [← hb, hm]
      show some (((pageFor s e).set (offOf e) v).getD (offOf f) nullE) = some w
      rw [hpf, List.getD_eq_getElem?_getD,
        List.getElem?_set_ne (fun hh => ho hh.symm), ← List.getD_eq_getElem?_getD]
      exact hprev
  · rw [if_neg hb]
    exact hprev

theorem sparse_ptr_write_slot_same {s : Sparse} (hw : PagesWF s) {e u v f : Nat}
    (hex : sparse_ptr s e = some u)
    (hidx : Ent64.to_entity f = Ent64.to_entity e) :
    sparse_ptr (write_slot s e v) f = some v := by
  have hb : bucketOf f = bucketOf e := by rw [bucketOf_eq, bucketOf_eq, hidx]
  have ho : offOf f = offOf e := by rw [offOf_eq, offOf_eq, hidx]
  unfold sparse_ptr at hex ⊢
  rw [hb, write_slot_sparse_getD]
  cases hm : s.sparse.getD (bucketOf e) none with
  | none => rw [hm] at hex; exact absurd hex (by simp)
  | some pg =>
    dsimp only
    rw [if_pos rfl]
    show some ((pg.set (offOf e) v).getD (offOf f) nullE) = some v
    have hpl : pg.length = pageSize := hw _ (getD_some_mem hm) pg rfl
    have hlt : offOf e < pg.length := by
      rw [hpl]
      exact Nat.lt_of_lt_of_le (offOf_lt e) (by norm_num [pageSize])
    rw [ho, List.getD_eq_getElem?_getD, List.getElem?_set_self hlt]
    rfl

theorem sparse_ptr_write_slot_other {s : Sparse} {e v f : Nat}
    (hidx : Ent64.to_entity f ≠ Ent64.to_entity e) :
    sparse_ptr (write_slot s e v) f = sparse_ptr s f := by
  unfold sparse_ptr
  rw [write_slot_sparse_getD]
  cases hm : s.sparse.getD (bucketOf e) none with
  | none => rfl
  | some pg =>
    dsimp only
    by_cases hb : bucketOf f = bucketOf e
    · rw [if_pos hb]
      have ho : offOf f ≠ offOf e := fun ho => hidx (idx_eq_of_bucket_off f e hb ho)
      rw [show s.sparse.getD (bucketOf f) none = some pg from by rw [hb]; exact hm]
      show some ((pg.set (offOf e) v).getD (offOf f) nullE)
          = some (pg.getD (offOf f) nullE)
      rw [List.getD_eq_getElem?_getD,
        List.getElem?_set_ne (fun hh => ho hh.symm), ← List.getD_eq_getElem?_getD]
    · rw [if_neg hb]

theorem pagesWF_assure_write {s : Sparse} (hw : PagesWF s) (e v : Nat) :
    PagesWF (assure_write s e v) := by
  intro pgo hmem l hl
  subst hl
  simp only [assure_write] at hmem
  rcases List.mem_or_eq_of_mem_set hmem with hmem1 | heq
  · have hmem2 : some l ∈ s.sparse := by
      revert hmem1
      split
      · intro hmem1
        rcases List.mem_append.1 hmem1 with h1 | h1
        · exact h1
        · exact absurd (List.eq_of_mem_replicate h1) (by simp)
      · exact fun h => h
    exact hw _ hmem2 l rfl
  · have hsp : (if s.sparse.length ≤ bucketOf e
        then s.sparse ++ List.replicate (bucketOf e + 1 - s.sparse.length) none
        else s.sparse).getD (bucketOf e) none = s.sparse.getD (bucketOf e) none := by
      split
      · exact getD_append_replicate _ _ _
      · rfl
    rw [hsp] at heq
    have hl2 := Option.some.inj heq
    rw [hl2, List.length_set]
    exact pageFor_length hw e

theorem pagesWF_write_slot {s : Sparse} (hw : PagesWF s) (e v : Nat) :
    PagesWF (write_slot s e v) := by
  intro pgo hmem l hl
  subst hl
  unfold write_slot at hmem
  revert hmem
  cases hm : s.sparse.getD (bucketOf e) none with
  | none => exact fun hmem => hw _ hmem l rfl
  | some pg =>
    intro hmem
    simp only at hmem
    rcases List.mem_or_eq_of_mem_set hmem with hmem1 | heq
    · exact hw _ hmem1 l rfl
    · have hl2 := Option.some.inj heq
      rw [hl2, List.length_set]
      exact hw _ (getD_some_mem hm) pg rfl

theorem scontains_iff (s : Sparse) (e : Nat) :
    scontains s e = true ↔ ∃ sv, sparse_ptr s e = some sv ∧
      Ent64.to_entity sv ≠ Ent64.entity_mask ∧
      Ent64.to_entity sv < s.packed.length ∧
      s.packed.getD (Ent64.to_entity sv) 0 = e := by
  unfold scontains
  cases hm : sparse_ptr s e with
  | none =>
    simp only [Bool.false_eq_true, false_iff]
    rintro ⟨sv, hsv, -⟩
    simp at hsv
  | some sv =>
    simp only [Bool.and_eq_true, Bool.not_eq_true', decide_eq_true_eq, beq_iff_eq,
      isNullE_false_iff]
    constructor
    · rintro ⟨⟨h1, h2⟩, h3⟩
      exact ⟨sv, rfl, h1, h2, h3⟩
    · rintro ⟨sv', hsv', h1, h2, h3⟩
      have := Option.some.inj hsv'
      subst this
      exact ⟨⟨h1, h2⟩, h3⟩

theorem distinct_indices_length_le (l : List Nat)
    (hdist : ∀ i j, i < j → j < l.length →
      Ent64.to_entity (l.getD i 0) ≠ Ent64.to_entity (l.getD j 0)) :
    l.length ≤ 2 ^ 32 := by
  have hnd : (l.map Ent64.to_entity).Nodup := by
    rw [List.Nodup, List.pairwise_iff_getElem]
    intro i j hi hj hij
    rw [List.length_map] at hi hj
    rw [List.getElem_map, List.getElem_map]
    have := hdist i j hij hj
    rw [getD_eq_getElem _ _ (by omega), getD_eq_getElem _ _ hj] at this
    exact this
  have hsub : (l.map Ent64.to_entity).toFinset ⊆ Finset.range (2 ^ 32) := by
    intro x hx
    rw [List.mem_toFinset] at hx
    rcases List.mem_map.1 hx with ⟨a, -, rfl⟩
    exact Finset.mem_range.2 (Ent64.to_entity_lt a)
  have hc := Finset.card_le_card hsub
  rw [Finset.card_range, List.toFinset_card_of_nodup hnd, List.length_map] at hc
  exact hc
end SA

/-! ### Sparse-set invariant and its preservation -/

theorem getD_append_lt {α : Type} (l : List α) (x d : α) {i : Nat}
    (h : i < l.length) : (l ++ [x]).getD i d = l.getD i d := by
  rw [List.getD_eq_getElem?_getD, List.getElem?_append_left h,
    ← List.getD_eq_getElem?_getD]

theorem getD_append_last {α : Type} (l : List α) (x d : α) :
    (l ++ [x]).getD l.length d = x := by
  rw [List.getD_eq_getElem?_getD, List.getElem?_append_right (Nat.le_refl _)]
  simp

theorem construct_zero_eq {i : Nat} (h : i < 2 ^ 32) : Ent64.construct i 0 = i := by
  unfold Ent64.construct
  simp only [Nat.zero_mod, Nat.zero_shiftLeft, Nat.or_zero]
  rw [Ent64.entity_mask_eq, Nat.and_pow_two_sub_one_eq_mod,
    Nat.mod_mod_of_dvd _ (Nat.pow_dvd_pow 2 (by norm_num)), Nat.mod_eq_of_lt h]

theorem construct_zero_to_entity {i : Nat} (h : i < 2 ^ 32) :
    Ent64.to_entity (Ent64.construct i 0) = i := by
  rw [Ent64.to_entity_construct, Nat.mod_eq_of_lt h]
namespace SA

theorem sinv_empty : SInv emptySparse := by
  refine ⟨pagesWF_empty, ?_, ?_, ?_⟩
  · intro m hm; simp [emptySparse] at hm
  · intro i j hij hj; simp [emptySparse] at hj
  · intro i hi; simp [emptySparse] at hi

theorem sinv_len_le {s : Sparse} (h : SInv s) : s.packed.length ≤ 2 ^ 32 :=
  distinct_indices_length_le s.packed h.2.2.1

theorem sinv_pos_unique {s : Sparse} (h : SInv s) {i j : Nat}
    (hi : i < s.packed.length) (hj : j < s.packed.length)
    (he : s.packed.getD i 0 = s.packed.getD j 0) : i = j := by
  rcases Nat.lt_trichotomy i j with hlt | heq | hgt
  · exact absurd (congrArg Ent64.to_entity he) (h.2.2.1 i j hlt hj)
  · exact heq
  · exact absurd (congrArg Ent64.to_entity he.symm) (h.2.2.1 j i hgt hi)

/-- Under the invariant, a contained entity sits at the packed position its
sparse slot decodes to, and that slot is exactly `construct(pos, 0)`. -/
theorem sinv_slot_of_contains {s : Sparse} (h : SInv s) {e : Nat}
    (hc : scontains s e = true) :
    ∃ p, p < s.packed.length ∧ s.packed.getD p 0 = e ∧
      sparse_ptr s e = some (Ent64.construct p 0) ∧
      sparse_get s e = Ent64.construct p 0 ∧
      Ent64.to_entity (sparse_get s e) = p := by
  rcases (scontains_iff s e).1 hc with ⟨sv, hsv, -, hlt, hpk⟩
  refine ⟨Ent64.to_entity sv, hlt, hpk, ?_⟩
  have hslot := h.2.2.2 (Ent64.to_entity sv) hlt
  rw [hpk] at hslot
  have hsv2 : sv = Ent64.construct (Ent64.to_entity sv) 0 := by
    rw [hsv] at hslot
    exact Option.some.inj hslot
  have hptr : sparse_ptr s e = some (Ent64.construct (Ent64.to_entity sv) 0) := by
    rw [hsv, ← hsv2]
  have hget := sparse_get_of_ptr hptr
  refine ⟨hptr, hget, ?_⟩
  rw [hget]
  exact construct_zero_to_entity
    (Nat.lt_of_lt_of_le hlt (sinv_len_le h))

theorem semplace_packed (s : Sparse) (e : Nat) :
    (semplace s e).packed = s.packed ++ [e] := rfl

theorem semplace_sparse_ptr (s : Sparse) (e f : Nat) :
    sparse_ptr (semplace s e) f =
      sparse_ptr (assure_write s e (Ent64.construct s.packed.length 0)) f := rfl

theorem sinv_semplace {s : Sparse} (h : SInv s) {e : Nat} (he : e < 2 ^ 64)
    (hfresh : ∀ m ∈ s.packed, Ent64.to_entity m ≠ Ent64.to_entity e) :
    SInv (semplace s e) := by
  obtain ⟨hw, hlt, hdist, hslot⟩ := h
  refine ⟨?_, ?_, ?_, ?_⟩
  · exact pagesWF_assure_write hw e _
  · intro m hm
    rw [semplace_packed] at hm
    rcases List.mem_append.1 hm with h1 | h1
    · exact hlt m h1
    · rw [List.mem_singleton.1 h1]; exact he
  · intro i j hij hj
    rw [semplace_packed] at hj ⊢
    rw [List.length_append, List.length_singleton] at hj
    by_cases hjl : j < s.packed.length
    · rw [getD_append_lt _ _ _ (by omega), getD_append_lt _ _ _ hjl]
      exact hdist i j hij hjl
    · have hje : j = s.packed.length := by omega
      subst hje
      rw [getD_append_lt _ _ _ (by omega), getD_append_last]
      apply hfresh
      rw [getD_eq_getElem _ _ (by omega)]
      exact List.getElem_mem _
  · intro i hi
    rw [semplace_packed] at hi ⊢
    rw [List.length_append, List.length_singleton] at hi
    by_cases hil : i < s.packed.length
    · rw [getD_append_lt _ _ _ hil, semplace_sparse_ptr]
      apply sparse_ptr_assure_write_other
      · apply hfresh
        rw [getD_eq_getElem _ _ hil]
        exact List.getElem_mem _
      · exact hslot i hil
    · have hie : i = s.packed.length := by omega
      subst hie
      rw [getD_append_last, semplace_sparse_ptr]
      exact sparse_ptr_assure_write_same hw rfl

theorem sremove_of_not_contains {s : Sparse} {e : Nat}
    (hc : scontains s e = false) : sremove s e = (false, s) := by
  unfold sremove
  rw [hc]
  simp only [Bool.not_false, if_true]

theorem sremove_fst {s : Sparse} {e : Nat} (hc : scontains s e = true) :
    (sremove s e).1 = true := by
  unfold sremove
  rw [hc]
  simp only [Bool.not_true, Bool.false_eq_true, if_false]

theorem sremove_snd_packed {s : Sparse} {e : Nat} (hc : scontains s e = true) :
    (sremove s e).2.packed =
      ((s.packed.set (Ent64.to_entity (sparse_get s e))
          (s.packed.getD (Ent64.to_entity (sparse_get s (tailE s))) 0)).set
        (Ent64.to_entity (sparse_get s (tailE s)))
        (s.packed.getD (Ent64.to_entity (sparse_get s e)) 0)).dropLast := by
  unfold sremove
  rw [hc]
  simp only [Bool.not_true, Bool.false_eq_true, if_false]
  dsimp only [tailE]
  rw [write_slot_packed, write_slot_packed]

theorem sparse_ptr_congr {a b : Sparse} (h : a.sparse = b.sparse) (f : Nat) :
    sparse_ptr a f = sparse_ptr b f := by
  unfold sparse_ptr
  rw [h]

theorem write_slot_sparse_congr {a b : Sparse} (h : a.sparse = b.sparse)
    (e v : Nat) : (write_slot a e v).sparse = (write_slot b e v).sparse := by
  obtain ⟨asp, apk⟩ := a
  obtain ⟨bsp, bpk⟩ := b
  dsimp only at h
  subst h
  unfold write_slot
  dsimp only
  cases hm : asp.getD (bucketOf e) none <;> rfl

theorem sremove_snd_ptr {s : Sparse} {e : Nat} (hc : scontains s e = true)
    (f : Nat) :
    sparse_ptr (sremove s e).2 f =
      sparse_ptr (write_slot (write_slot s e (sparse_get s (tailE s)))
        (tailE s) (sparse_get s e)) f := by
  unfold sremove
  rw [hc]
  simp only [Bool.not_true, Bool.false_eq_true, if_false]
  apply sparse_ptr_congr
  show (write_slot (write_slot _ _ _) _ _).sparse = _
  apply write_slot_sparse_congr
  apply write_slot_sparse_congr
  rfl

theorem pagesWF_of_sparse_eq {s1 s2 : Sparse} (h : s1.sparse = s2.sparse)
    (hw : PagesWF s1) : PagesWF s2 := by
  intro pgo hm
  rw [← h] at hm
  exact hw pgo hm

theorem sremove_snd_sparse {s : Sparse} {e : Nat} (hc : scontains s e = true) :
    (sremove s e).2.sparse =
      (write_slot (write_slot s e (sparse_get s (tailE s)))
        (tailE s) (sparse_get s e)).sparse := by
  unfold sremove
  rw [hc]
  simp only [Bool.not_true, Bool.false_eq_true, if_false]
  show (write_slot (write_slot _ _ _) _ _).sparse = _
  apply write_slot_sparse_congr
  apply write_slot_sparse_congr
  rfl

/-- Complete description of the sparse slots after `sremove`. -/
theorem sremove_final_ptr {s : Sparse} (h : SInv s) {e p : Nat}
    (hc : scontains s e = true)
    (hp : p < s.packed.length) (hpk : s.packed.getD p 0 = e)
    (hget : sparse_get s e = Ent64.construct p 0) (f : Nat) :
    sparse_ptr (sremove s e).2 f =
      (if Ent64.to_entity f = Ent64.to_entity e
       then some (Ent64.construct (s.packed.length - 1) 0)
       else if Ent64.to_entity f = Ent64.to_entity (tailE s)
       then some (Ent64.construct p 0)
       else sparse_ptr s f) := by
  obtain ⟨hw, hltm, hdist, hslot⟩ := h
  have hn : 0 < s.packed.length := Nat.lt_of_le_of_lt (Nat.zero_le p) hp
  have hlen := sinv_len_le ⟨hw, hltm, hdist, hslot⟩
  have htail := hslot (s.packed.length - 1) (by omega)
  have htailget : sparse_get s (tailE s) =
      Ent64.construct (s.packed.length - 1) 0 :=
    sparse_get_of_ptr htail
  have hptr : sparse_ptr s e = some (Ent64.construct p 0) := by
    have := hslot p hp
    rw [hpk] at this
    exact this
  have hdist2 : ∀ i j, i < s.packed.length → j < s.packed.length → i ≠ j →
      Ent64.to_entity (s.packed.getD i 0) ≠ Ent64.to_entity (s.packed.getD j 0) := by
    intro i j hi hj hne
    rcases Nat.lt_or_ge i j with hlt | hge
    · exact hdist i j hlt hj
    · have hgt : j < i := by omega
      exact fun hh => (hdist j i hgt hi) hh.symm
  have hiff : Ent64.to_entity e = Ent64.to_entity (tailE s) ↔ p = s.packed.length - 1 := by
    constructor
    · intro hh
      by_contra hne
      exact hdist2 p (s.packed.length - 1) hp (by omega) hne (by rw [hpk]; exact hh)
    · intro hh
      rw [← hpk, hh]
      rfl
  rw [sremove_snd_ptr hc f, htailget, hget]
  by_cases hfe : Ent64.to_entity f = Ent64.to_entity e
  · rw [if_pos hfe]
    by_cases het : Ent64.to_entity e = Ent64.to_entity (tailE s)
    · -- removing the tail itself: both writes hit the same slot
      have hpe : p = s.packed.length - 1 := hiff.1 het
      have hinner : sparse_ptr (write_slot s e (Ent64.construct (s.packed.length - 1) 0))
          (tailE s) = some (Ent64.construct (s.packed.length - 1) 0) := by
        apply sparse_ptr_write_slot_same hw hptr
        exact het.symm
      have hres := sparse_ptr_write_slot_same (v := Ent64.construct p 0)
        (pagesWF_write_slot hw e _) hinner (f := f) (by rw [hfe]; exact het)
      rw [hres, hpe]
    · have hft : Ent64.to_entity f ≠ Ent64.to_entity (tailE s) := by
        rw [hfe]; exact het
      rw [sparse_ptr_write_slot_other hft]
      exact sparse_ptr_write_slot_same hw hptr hfe
  · rw [if_neg hfe]
    by_cases hft : Ent64.to_entity f = Ent64.to_entity (tailE s)
    · rw [if_pos hft]
      have het : Ent64.to_entity (tailE s) ≠ Ent64.to_entity e := by
        intro hh
        exact hfe (by rw [hft]; exact hh)
      have hinner : sparse_ptr (write_slot s e (Ent64.construct (s.packed.length - 1) 0))
          (tailE s) = some (Ent64.construct (s.packed.length - 1) 0) := by
        rw [sparse_ptr_write_slot_other het]
        exact htail
      exact sparse_ptr_write_slot_same (pagesWF_write_slot hw e _) hinner hft
    · rw [if_neg hft]
      have het : Ent64.to_entity f ≠ Ent64.to_entity e := hfe
      rw [sparse_ptr_write_slot_other hft, sparse_ptr_write_slot_other het]

theorem getD_dropLast {α : Type} (l : List α) (d : α) {j : Nat}
    (hj : j < l.length - 1) : l.dropLast.getD j d = l.getD j d := by
  rw [List.getD_eq_getElem?_getD, List.getD_eq_getElem?_getD,
    List.getElem?_dropLast, if_pos hj]

theorem sremove_packed_length {s : Sparse} {e : Nat}
    (hc : scontains s e = true) :
    (sremove s e).2.packed.length = s.packed.length - 1 := by
  rw [sremove_snd_packed hc, List.length_dropLast, List.length_set, List.length_set]

/-- Helper bundle: the canonical position of a contained entity plus the
decoded tail position. -/
theorem sremove_packed_getD {s : Sparse} (h : SInv s) {e p : Nat}
    (hc : scontains s e = true)
    (hp : p < s.packed.length) (hpk : s.packed.getD p 0 = e)
    (hget : sparse_get s e = Ent64.construct p 0) {j : Nat}
    (hj : j < s.packed.length - 1) :
    (sremove s e).2.packed.getD j 0 =
      (if j = p then s.packed.getD (s.packed.length - 1) 0
       else s.packed.getD j 0) := by
  have hlen := sinv_len_le h
  have hn : 0 < s.packed.length := Nat.lt_of_le_of_lt (Nat.zero_le p) hp
  have htail := h.2.2.2 (s.packed.length - 1) (by omega)
  have htailget : sparse_get s (tailE s) =
      Ent64.construct (s.packed.length - 1) 0 := sparse_get_of_ptr htail
  have hdecp : Ent64.to_entity (sparse_get s e) = p := by
    rw [hget]; exact construct_zero_to_entity (by omega)
  have hdect : Ent64.to_entity (sparse_get s (tailE s)) = s.packed.length - 1 := by
    rw [htailget]; exact construct_zero_to_entity (by omega)
  rw [sremove_snd_packed hc, hdecp]
  show (((s.packed.set p (s.packed.getD (Ent64.to_entity (sparse_get s (tailE s))) 0)).set
      (Ent64.to_entity (sparse_get s (tailE s))) (s.packed.getD p 0)).dropLast).getD j 0 = _
  rw [hdect, hpk]
  have hlset : ((s.packed.set p (s.packed.getD (s.packed.length - 1) 0)).set
      (s.packed.length - 1) e).length = s.packed.length := by
    rw [List.length_set, List.length_set]
  rw [getD_dropLast _ _ (by rw [hlset]; exact hj)]
  rw [List.getD_eq_getElem?_getD, List.getElem?_set_ne (by omega)]
  by_cases hjp : j = p
  · subst hjp
    rw [List.getElem?_set_self (by omega), Option.getD_some, if_pos rfl]
  · rw [List.getElem?_set_ne (by omega), if_neg hjp, ← List.getD_eq_getElem?_getD]

theorem sremove_sinv {s : Sparse} (h : SInv s) {e p : Nat}
    (hc : scontains s e = true)
    (hp : p < s.packed.length) (hpk : s.packed.getD p 0 = e)
    (hget : sparse_get s e = Ent64.construct p 0) :
    SInv (sremove s e).2 := by
  obtain ⟨hw, hltm, hdist, hslot⟩ := h
  have hSI : SInv s := ⟨hw, hltm, hdist, hslot⟩
  have hlen := sinv_len_le hSI
  have hn : 0 < s.packed.length := Nat.lt_of_le_of_lt (Nat.zero_le p) hp
  have hdist2 : ∀ i j, i < s.packed.length → j < s.packed.length → i ≠ j →
      Ent64.to_entity (s.packed.getD i 0) ≠ Ent64.to_entity (s.packed.getD j 0) := by
    intro i j hi hj hne
    rcases Nat.lt_or_ge i j with hlt | hge
    · exact hdist i j hlt hj
    · exact fun hh => (hdist j i (by omega) hi) hh.symm
  have hL := sremove_packed_length hc
  have hG := fun {j} (hj : j < s.packed.length - 1) =>
    sremove_packed_getD hSI hc hp hpk hget hj
  have hmem_old : ∀ j, j < s.packed.length → s.packed.getD j 0 ∈ s.packed := by
    intro j hj
    rw [getD_eq_getElem _ _ hj]
    exact List.getElem_mem _
  refine ⟨?_, ?_, ?_, ?_⟩
  · exact pagesWF_of_sparse_eq (sremove_snd_sparse hc).symm
      (pagesWF_write_slot (pagesWF_write_slot hw _ _) _ _)
  · intro m hm
    rcases List.mem_iff_getElem.1 hm with ⟨j, hjl, hje⟩
    rw [hL] at hjl
    have hm2 : m = (sremove s e).2.packed.getD j 0 := by
      rw [getD_eq_getElem _ _ (by rw [hL]; exact hjl)]
      exact hje.symm
    rw [hm2, hG hjl]
    split
    · exact hltm _ (hmem_old _ (by omega))
    · exact hltm _ (hmem_old _ (by omega))
  · intro i j hij hj
    rw [hL] at hj
    rw [hG (by omega), hG hj]
    by_cases hip : i = p <;> by_cases hjp : j = p
    · omega
    · rw [if_pos hip, if_neg hjp]
      exact hdist2 (s.packed.length - 1) j (by omega) (by omega) (by omega)
    · rw [if_neg hip, if_pos hjp]
      exact hdist2 i (s.packed.length - 1) (by omega) (by omega) (by omega)
    · rw [if_neg hip, if_neg hjp]
      exact hdist2 i j (by omega) (by omega) (by omega)
  · intro j hj
    rw [hL] at hj
    rw [hG hj]
    have hFP := sremove_final_ptr hSI hc hp hpk hget
    by_cases hjp : j = p
    · rw [if_pos hjp]
      rw [hFP]
      have hne1 : Ent64.to_entity (s.packed.getD (s.packed.length - 1) 0) ≠
          Ent64.to_entity e := by
        rw [← hpk]
        exact hdist2 (s.packed.length - 1) p (by omega) hp (by omega)
      have htt : Ent64.to_entity (s.packed.getD (s.packed.length - 1) 0) =
          Ent64.to_entity (tailE s) := rfl
      rw [if_neg hne1, if_pos htt, hjp]
    · rw [if_neg hjp]
      rw [hFP]
      have hne1 : Ent64.to_entity (s.packed.getD j 0) ≠ Ent64.to_entity e := by
        rw [← hpk]
        exact hdist2 j p (by omega) hp hjp
      have hne2 : Ent64.to_entity (s.packed.getD j 0) ≠
          Ent64.to_entity (tailE s) := by
        show _ ≠ Ent64.to_entity (s.packed.getD (s.packed.length - 1) 0)
        exact hdist2 j (s.packed.length - 1) (by omega) (by omega) (by omega)
      rw [if_neg hne1, if_neg hne2]
      exact hslot j (by omega)

theorem sremove_scontains_self {s : Sparse} (h : SInv s) {e p : Nat}
    (hc : scontains s e = true)
    (hp : p < s.packed.length) (hpk : s.packed.getD p 0 = e)
    (hget : sparse_get s e = Ent64.construct p 0) :
    scontains (sremove s e).2 e = false := by
  have hlen := sinv_len_le h
  have hn : 0 < s.packed.length := Nat.lt_of_le_of_lt (Nat.zero_le p) hp
  have hFP := sremove_final_ptr h hc hp hpk hget e
  rw [if_pos rfl] at hFP
  have hL := sremove_packed_length hc
  cases hb : scontains (sremove s e).2 e with
  | false => rfl
  | true =>
    exfalso
    rcases (scontains_iff _ _).1 hb with ⟨sv, hsv, -, hbound, -⟩
    rw [hFP] at hsv
    have hsveq := Option.some.inj hsv
    rw [← hsveq] at hbound
    rw [construct_zero_to_entity (by omega)] at hbound
    omega

theorem sremove_scontains_frame {s : Sparse} (h : SInv s) {e p : Nat}
    (hc : scontains s e = true)
    (hp : p < s.packed.length) (hpk : s.packed.getD p 0 = e)
    (hget : sparse_get s e = Ent64.construct p 0)
    {f : Nat} (hfe : f ≠ e) (hcf : scontains s f = true) :
    scontains (sremove s e).2 f = true ∧
    Ent64.to_entity (sparse_get (sremove s e).2 f) =
      (if Ent64.to_entity (sparse_get s f) = s.packed.length - 1 then p
       else Ent64.to_entity (sparse_get s f)) := by
  have hlen := sinv_len_le h
  have hn : 0 < s.packed.length := Nat.lt_of_le_of_lt (Nat.zero_le p) hp
  obtain ⟨q, hq, hqk, hqptr, hqget, hqdec⟩ := sinv_slot_of_contains h hcf
  have hqp : q ≠ p := by
    intro hh
    rw [hh, hpk] at hqk
    exact hfe hqk.symm
  have hdist2 : ∀ i j, i < s.packed.length → j < s.packed.length → i ≠ j →
      Ent64.to_entity (s.packed.getD i 0) ≠ Ent64.to_entity (s.packed.getD j 0) := by
    intro i j hi hj hne
    rcases Nat.lt_or_ge i j with hlt | hge
    · exact h.2.2.1 i j hlt hj
    · exact fun hh => (h.2.2.1 j i (by omega) hi) hh.symm
  have hFP := sremove_final_ptr h hc hp hpk hget f
  have hfne : Ent64.to_entity f ≠ Ent64.to_entity e := by
    rw [← hqk, ← hpk]
    exact hdist2 q p hq hp hqp
  rw [if_neg hfne] at hFP
  have hL := sremove_packed_length hc
  have hG := fun {j} (hj : j < s.packed.length - 1) =>
    sremove_packed_getD h hc hp hpk hget hj
  by_cases hql : q = s.packed.length - 1
  · -- f is the tail entity: it moves to position p
    have hft : Ent64.to_entity f = Ent64.to_entity (tailE s) := by
      show _ = Ent64.to_entity (s.packed.getD (s.packed.length - 1) 0)
      rw [← hql, hqk]
    rw [if_pos hft] at hFP
    have hpn : p ≠ s.packed.length - 1 := by omega
    have hplt : p < s.packed.length - 1 := by omega
    constructor
    · rw [scontains_iff]
      refine ⟨Ent64.construct p 0, hFP, ?_, ?_, ?_⟩
      · rw [construct_zero_to_entity (by omega)]
        norm_num [Ent64.entity_mask]
        omega
      · rw [construct_zero_to_entity (by omega), hL]
        exact hplt
      · rw [construct_zero_to_entity (by omega), hG hplt, if_pos rfl, ← hql, hqk]
    · rw [sparse_get_of_ptr hFP, hqget, construct_zero_to_entity (by omega),
        construct_zero_to_entity (by omega), if_pos hql]
  · -- f keeps its position
    have hft : Ent64.to_entity f ≠ Ent64.to_entity (tailE s) := by
      show _ ≠ Ent64.to_entity (s.packed.getD (s.packed.length - 1) 0)
      rw [← hqk]
      exact hdist2 q (s.packed.length - 1) hq (by omega) hql
    rw [if_neg hft] at hFP
    rw [hqptr] at hFP
    have hqlt : q < s.packed.length - 1 := by omega
    constructor
    · rw [scontains_iff]
      refine ⟨Ent64.construct q 0, hFP, ?_, ?_, ?_⟩
      · rw [construct_zero_to_entity (by omega)]
        norm_num [Ent64.entity_mask]
        omega
      · rw [construct_zero_to_entity (by omega), hL]
        exact hqlt
      · rw [construct_zero_to_entity (by omega), hG hqlt, if_neg hqp, hqk]
    · rw [sparse_get_of_ptr hFP, hqget, construct_zero_to_entity (by omega),
        if_neg hql]
end SA
namespace DPool

theorem dinv_empty : DInv DPool.empty := ⟨SA.sinv_empty, rfl⟩

theorem emplace_s (P : DPool) (e v : Nat) :
    (DPool.emplace P e v).s = SA.semplace P.s e := rfl

theorem emplace_components (P : DPool) (e v : Nat) :
    (DPool.emplace P e v).components = P.components ++ [v] := rfl

theorem emplace_dinv {P : DPool} (h : DInv P) {e : Nat} (he : e < 2 ^ 64)
    (hfresh : ∀ m ∈ P.s.packed, Ent64.to_entity m ≠ Ent64.to_entity e) (v : Nat) :
    DInv (DPool.emplace P e v) := by
  refine ⟨SA.sinv_semplace h.1 he hfresh, ?_⟩
  rw [emplace_s, emplace_components, SA.semplace_packed,
    List.length_append, List.length_append, h.2]
  simp

theorem remove_of_not_contains {P : DPool} {e : Nat}
    (hc : SA.scontains P.s e = false) : DPool.remove P e = (false, P) := by
  unfold DPool.remove
  rw [hc]
  simp only [Bool.not_false, if_true]

theorem remove_eq {P : DPool} {e : Nat} (hc : SA.scontains P.s e = true) :
    DPool.remove P e = (true,
      { s := (SA.sremove P.s e).2,
        components := ((P.components.set (SA.sparse_get P.s e)
            (P.components.getD (P.components.length - 1) 0)).set
            (P.components.length - 1)
            (P.components.getD (SA.sparse_get P.s e) 0)).dropLast }) := by
  unfold DPool.remove
  rw [hc]
  simp only [SA.sremove_fst hc, Bool.not_true, Bool.false_eq_true, if_false]

theorem remove_spec {P : DPool} (h : DInv P) {e : Nat}
    (hc : SA.scontains P.s e = true) :
    (DPool.remove P e).1 = true ∧
    DInv (DPool.remove P e).2 ∧
    DPool.size (DPool.remove P e).2 = DPool.size P - 1 ∧
    SA.scontains (DPool.remove P e).2.s e = false ∧
    (∀ f, f ≠ e → SA.scontains P.s f = true →
      SA.scontains (DPool.remove P e).2.s f = true ∧
      DPool.get (DPool.remove P e).2 f = DPool.get P f) := by
  obtain ⟨hS, hcl⟩ := h
  obtain ⟨p, hp, hpk, hptr, hget, hdec⟩ := SA.sinv_slot_of_contains hS hc
  have hlen := SA.sinv_len_le hS
  have hn : 0 < P.s.packed.length := by omega
  have hpe : SA.sparse_get P.s e = p := by
    rw [hget]; exact construct_zero_eq (by omega)
  have hre := remove_eq hc
  rw [hre]
  refine ⟨rfl, ⟨?_, ?_⟩, ?_, ?_, ?_⟩
  · exact SA.sremove_sinv hS hc hp hpk hget
  · show (((P.components.set _ _).set _ _).dropLast).length =
      (SA.sremove P.s e).2.packed.length
    rw [List.length_dropLast, List.length_set, List.length_set,
      SA.sremove_packed_length hc, hcl]
  · show (SA.sremove P.s e).2.packed.length = P.s.packed.length - 1
    exact SA.sremove_packed_length hc
  · exact SA.sremove_scontains_self hS hc hp hpk hget
  · intro f hfe hcf
    obtain ⟨hcf2, hdecf⟩ := SA.sremove_scontains_frame hS hc hp hpk hget hfe hcf
    obtain ⟨q, hq, hqk, hqptr, hqget, hqdec⟩ := SA.sinv_slot_of_contains hS hcf
    refine ⟨hcf2, ?_⟩
    show (((P.components.set (SA.sparse_get P.s e) _).set _ _).dropLast).getD
        (Ent64.to_entity (SA.sparse_get (SA.sremove P.s e).2 f)) 0 =
      P.components.getD (Ent64.to_entity (SA.sparse_get P.s f)) 0
    rw [hdecf, hqdec, hpe]
    have hqp : q ≠ p := by
      intro hh
      rw [hh, hpk] at hqk
      exact hfe hqk.symm
    have hlset : ((P.components.set p (P.components.getD (P.components.length - 1) 0)).set
        (P.components.length - 1) (P.components.getD p 0)).length =
        P.components.length := by
      rw [List.length_set, List.length_set]
    by_cases hql : q = P.s.packed.length - 1
    · rw [if_pos hql]
      have hpn : p ≠ P.s.packed.length - 1 := by
        intro hh
        apply hfe
        rw [← hqk, hql, ← hh, hpk]
      rw [SA.getD_dropLast _ _ (by rw [hlset, hcl]; omega)]
      rw [List.getD_eq_getElem?_getD, List.getElem?_set_ne (by omega),
        List.getElem?_set_self (by omega),
        Option.getD_some, hcl, hql]
    · rw [if_neg hql]
      have hqlt : q < P.s.packed.length - 1 := by omega
      rw [SA.getD_dropLast _ _ (by rw [hlset, hcl]; omega)]
      rw [List.getD_eq_getElem?_getD, List.getElem?_set_ne (by omega),
        List.getElem?_set_ne (by omega), ← List.getD_eq_getElem?_getD]
end DPool

theorem reachD_dinv {P : DPool} (h : ReachD P) : DPool.DInv P := by
  induction h with
  | empty => exact DPool.dinv_empty
  | emplace e v _ he hfresh ih => exact DPool.emplace_dinv ih he hfresh v
  | @remove Q e _ ih =>
    cases hb : SA.scontains Q.s e with
    | false => rw [DPool.remove_of_not_contains hb]; exact ih
    | true => exact (DPool.remove_spec ih hb).2.1

/--
C1 (amended): for every default component pool reached by a sequence of
emplace/remove operations in which each emplace is called with an entity
whose index field is distinct from the index of every entity then in the
pool, the packed entity array and the components array always have equal
length, and each successful `remove(e)` decreases `size()` by exactly 1
(from a positive size), makes `contains(e)` false, and leaves every other
previously-present entity present with its `get` value unchanged.
-/
theorem c1_swap_and_pop_integrity {P : DPool} (hP : ReachD P) (e : Nat) :
    P.components.length = P.s.packed.length ∧
    ((DPool.remove P e).1 = true →
      1 ≤ DPool.size P ∧
      DPool.size (DPool.remove P e).2 = DPool.size P - 1 ∧
      DPool.dcontains (DPool.remove P e).2 e = false ∧
      (DPool.remove P e).2.components.length =
        (DPool.remove P e).2.s.packed.length ∧
      (∀ f, f ≠ e → DPool.dcontains P f = true →
        DPool.dcontains (DPool.remove P e).2 f = true ∧
        DPool.get (DPool.remove P e).2 f = DPool.get P f)) := by
  have hD := reachD_dinv hP
  refine ⟨hD.2, ?_⟩
  intro h1
  cases hb : SA.scontains P.s e with
  | false =>
    rw [DPool.remove_of_not_contains hb] at h1
    exact absurd h1 (by simp)
  | true =>
    obtain ⟨-, hD2, hsz, hce, hframe⟩ := DPool.remove_spec hD hb
    have hpos : 1 ≤ DPool.size P := by
      rcases (SA.scontains_iff _ _).1 hb with ⟨sv, -, -, hlt, -⟩
      show 1 ≤ P.s.packed.length
      omega
    exact ⟨hpos, hsz, hce, hD2.2, fun f hf hcf => hframe f hf hcf⟩

theorem c1PoolW_reach : ReachD c1PoolW := by
  apply ReachD.emplace 2 20
  · apply ReachD.emplace 1 10
    · exact ReachD.empty
    · norm_num
    · intro m hm
      simp [DPool.empty, SA.emptySparse] at hm
  · norm_num
  · intro m hm
    have hm2 : m = 1 := by
      simpa [DPool.emplace, SA.semplace, DPool.empty, SA.emptySparse,
        SA.assure_write] using hm
    subst hm2
    decide

theorem c1_swap_and_pop_integrity_witness :
    (DPool.remove c1PoolW 1).1 = true ∧
    c1PoolW.components.length = c1PoolW.s.packed.length ∧
    1 ≤ DPool.size c1PoolW ∧
    DPool.size (DPool.remove c1PoolW 1).2 = DPool.size c1PoolW - 1 ∧
    DPool.dcontains (DPool.remove c1PoolW 1).2 1 = false ∧
    (DPool.remove c1PoolW 1).2.components.length =
      (DPool.remove c1PoolW 1).2.s.packed.length ∧
    DPool.dcontains (DPool.remove c1PoolW 1).2 2 = true ∧
    DPool.get (DPool.remove c1PoolW 1).2 2 = DPool.get c1PoolW 2 :=
  ⟨by decide,
   (c1_swap_and_pop_integrity c1PoolW_reach 1).1,
   ((c1_swap_and_pop_integrity c1PoolW_reach 1).2 (by decide)).1,
   ((c1_swap_and_pop_integrity c1PoolW_reach 1).2 (by decide)).2.1,
   ((c1_swap_and_pop_integrity c1PoolW_reach 1).2 (by decide)).2.2.1,
   ((c1_swap_and_pop_integrity c1PoolW_reach 1).2 (by decide)).2.2.2.1,
   ((c1_swap_and_pop_integrity c1PoolW_reach 1).2 (by decide)).2.2.2.2 2
     (by decide) (by decide)⟩

/-! ### Memory-optimized pool lemmas -/

theorem two_le_count_of_two_pos (l : List Nat) (e : Nat) {i j : Nat}
    (hij : i < j) (hj : j < l.length) (hie : l.getD i 0 = e)
    (hje : l.getD j 0 = e) : 2 ≤ l.count e := by
  have h1 : e ∈ l.take j := by
    refine List.mem_iff_getElem.2 ⟨i, by rw [List.length_take]; omega, ?_⟩
    rw [List.getElem_take]
    rw [← SA.getD_eq_getElem l 0 (by omega)]
    exact hie
  have h2 : e ∈ l.drop j := by
    refine List.mem_iff_getElem.2 ⟨0, by rw [List.length_drop]; omega, ?_⟩
    rw [List.getElem_drop]
    rw [← SA.getD_eq_getElem l 0 (by omega)]
    simpa using hje
  have c1 : 0 < (l.take j).count e := List.count_pos_iff.2 h1
  have c2 : 0 < (l.drop j).count e := List.count_pos_iff.2 h2
  calc 2 ≤ (l.take j).count e + (l.drop j).count e := by omega
    _ = l.count e := by rw [← List.count_append, List.take_append_drop]
namespace MPool

theorem mcontains_iff (M : MPool) (e : Nat) :
    mcontains M e = true ↔ e ∈ M.packed := by
  unfold mcontains
  exact List.elem_iff

theorem mremove_of_not_contains {M : MPool} {e : Nat}
    (hc : mcontains M e = false) : MPool.remove M e = (false, M) := by
  unfold MPool.remove
  rw [hc]
  simp only [Bool.not_false, if_true]

theorem mremove_eq {M : MPool} {e : Nat} (hc : mcontains M e = true) :
    MPool.remove M e = (true,
      { M with
        packed := ((M.packed.set (get_index M e)
            (M.packed.getD (M.packed.length - 1) 0)).set (M.packed.length - 1)
            (M.packed.getD (get_index M e) 0)).dropLast,
        components := ((M.components.set (get_index M e)
            (M.components.getD (M.components.length - 1) 0)).set
            (M.components.length - 1)
            (M.components.getD (get_index M e) 0)).dropLast }) := by
  unfold MPool.remove
  rw [hc]
  simp only [Bool.not_true, Bool.false_eq_true, if_false]

/-- Removing an entity that occurs exactly once: the first remove returns
true and a second remove returns false leaving the pool unchanged. -/
theorem remove_count_one {M : MPool} {e : Nat} (hcnt : M.packed.count e = 1) :
    (MPool.remove M e).1 = true ∧
    MPool.remove (MPool.remove M e).2 e = (false, (MPool.remove M e).2) := by
  have hmem : e ∈ M.packed := List.count_pos_iff.1 (by omega)
  have hc : mcontains M e = true := (mcontains_iff M e).2 hmem
  have hre := mremove_eq hc
  have hidx_lt : get_index M e < M.packed.length :=
    List.findIdx_lt_length_of_exists ⟨e, hmem, by simp⟩
  have hidx_val : M.packed.getD (get_index M e) 0 = e := by
    rw [SA.getD_eq_getElem _ _ hidx_lt]
    exact eq_of_beq (List.findIdx_getElem (w := hidx_lt))
  have huniq : ∀ j, j < M.packed.length → j ≠ get_index M e →
      M.packed.getD j 0 ≠ e := by
    intro j hj hne hje
    rcases Nat.lt_or_ge j (get_index M e) with hlt | hge
    · exact absurd hcnt (by
        have := two_le_count_of_two_pos M.packed e hlt hidx_lt hje hidx_val
        omega)
    · have hlt2 : get_index M e < j := by omega
      exact absurd hcnt (by
        have := two_le_count_of_two_pos M.packed e hlt2 hj hidx_val hje
        omega)
  refine ⟨by rw [hre], ?_⟩
  apply mremove_of_not_contains
  rw [hre]
  cases hb : mcontains
      { M with
        packed := ((M.packed.set (get_index M e)
            (M.packed.getD (M.packed.length - 1) 0)).set (M.packed.length - 1)
            (M.packed.getD (get_index M e) 0)).dropLast,
        components := ((M.components.set (get_index M e)
            (M.components.getD (M.components.length - 1) 0)).set
            (M.components.length - 1)
            (M.components.getD (get_index M e) 0)).dropLast } e with
  | false => rfl
  | true =>
    exfalso
    have hmem2 := (mcontains_iff _ _).1 hb
    rcases List.mem_iff_getElem.1 hmem2 with ⟨j, hjl, hje⟩
    have hlset : ((M.packed.set (get_index M e)
        (M.packed.getD (M.packed.length - 1) 0)).set (M.packed.length - 1)
        (M.packed.getD (get_index M e) 0)).length = M.packed.length := by
      rw [List.length_set, List.length_set]
    have hjl2 : j < M.packed.length - 1 := by
      have := hjl
      simp only [List.length_dropLast, hlset] at this
      exact this
    have hje2 : (((M.packed.set (get_index M e)
        (M.packed.getD (M.packed.length - 1) 0)).set (M.packed.length - 1)
        (M.packed.getD (get_index M e) 0)).dropLast).getD j 0 = e := by
      rw [SA.getD_eq_getElem _ _ (by simp only [List.length_dropLast, hlset]; omega)]
      exact hje
    rw [SA.getD_dropLast _ _ (by rw [hlset]; omega)] at hje2
    rw [List.getD_eq_getElem?_getD, List.getElem?_set_ne (by omega)] at hje2
    by_cases hji : j = get_index M e
    · rw [hji, List.getElem?_set_self (by omega), Option.getD_some] at hje2
      have hne : M.packed.length - 1 ≠ get_index M e := by omega
      exact huniq (M.packed.length - 1) (by omega) hne hje2
    · rw [List.getElem?_set_ne (by omega), ← List.getD_eq_getElem?_getD] at hje2
      exact huniq j (by omega) hji hje2
end MPool

theorem reachS_sinv {S : SA.Sparse} (h : ReachS S) : SA.SInv S := by
  induction h with
  | empty => exact SA.sinv_empty
  | emplace e _ he hfresh ih => exact SA.sinv_semplace ih he hfresh
  | @remove T e _ ih =>
    cases hb : SA.scontains T e with
    | false => rw [SA.sremove_of_not_contains hb]; exact ih
    | true =>
      obtain ⟨p, hp, hpk, -, hget, -⟩ := SA.sinv_slot_of_contains ih hb
      exact SA.sremove_sinv ih hb hp hpk hget

/--
C1 counterexample: the claim as stated quantifies over *every* sequence of
emplace/remove operations.  The sequence below respects the documented
`emplace` precondition `!contains(e)` at every step (two live handles with
equal index field but different versions are emplaced), yet the final
`remove` succeeds (returns true) while leaving `contains(e)` true, and the
surviving entity's stored component value changes from 30 to 20.
Entities: 5 = construct(5,0), 2 = construct(2,0),
4294967298 = construct(2,1) (same index field as 2).
-/
theorem c1_counterexample :
    (SA.scontains (DPool.emplace DPool.empty 5 10).s 2 = false ∧
     SA.scontains (DPool.emplace (DPool.emplace DPool.empty 5 10) 2 20).s
       4294967298 = false ∧
     SA.scontains
       (DPool.emplace (DPool.emplace (DPool.emplace DPool.empty 5 10) 2 20)
         4294967298 30).s 5 = true) ∧
    (DPool.remove
      (DPool.emplace (DPool.emplace (DPool.emplace DPool.empty 5 10) 2 20)
        4294967298 30) 5).1 = true ∧
    DPool.get
      ((DPool.remove
        (DPool.emplace (DPool.emplace (DPool.emplace DPool.empty 5 10) 2 20)
          4294967298 30) 5).2) 4294967298 = 30 ∧
    (DPool.remove
      ((DPool.remove
        (DPool.emplace (DPool.emplace (DPool.emplace DPool.empty 5 10) 2 20)
          4294967298 30) 5).2) 4294967298).1 = true ∧
    DPool.dcontains
      ((DPool.remove
        ((DPool.remove
          (DPool.emplace (DPool.emplace (DPool.emplace DPool.empty 5 10) 2 20)
            4294967298 30) 5).2) 4294967298).2) 4294967298 = true ∧
    DPool.get
      ((DPool.remove
        ((DPool.remove
          (DPool.emplace (DPool.emplace (DPool.emplace DPool.empty 5 10) 2 20)
            4294967298 30) 5).2) 4294967298).2) 4294967298 = 20 := by
  decide

/--
C8 (amended): for each pool variant, removing an entity that is present
exactly once (for the sparse-backed variants: in a pool reached under the
one-live-handle-per-index discipline) returns true, and a second remove of
the same entity returns false and leaves the pool state entirely
unchanged; in every variant, remove on a non-member returns false without
modifying the pool.
-/
theorem c8_remove_twice :
    (∀ (P : DPool), ReachD P → ∀ e, DPool.dcontains P e = true →
      (DPool.remove P e).1 = true ∧
      DPool.remove (DPool.remove P e).2 e = (false, (DPool.remove P e).2)) ∧
    (∀ (M : MPool) (e : Nat), M.packed.count e = 1 →
      (MPool.remove M e).1 = true ∧
      MPool.remove (MPool.remove M e).2 e = (false, (MPool.remove M e).2)) ∧
    (∀ (S : SA.Sparse), ReachS S → ∀ e, SA.scontains S e = true →
      (SA.sremove S e).1 = true ∧
      SA.sremove (SA.sremove S e).2 e = (false, (SA.sremove S e).2)) ∧
    (∀ (P : DPool) (e : Nat), DPool.dcontains P e = false →
      DPool.remove P e = (false, P)) ∧
    (∀ (M : MPool) (e : Nat), MPool.mcontains M e = false →
      MPool.remove M e = (false, M)) ∧
    (∀ (S : SA.Sparse) (e : Nat), SA.scontains S e = false →
      SA.sremove S e = (false, S)) := by
  refine ⟨?_, ?_, ?_, ?_, ?_, ?_⟩
  · intro P hP e hc
    have hD := reachD_dinv hP
    obtain ⟨h1, -, -, hce, -⟩ := DPool.remove_spec hD hc
    exact ⟨h1, DPool.remove_of_not_contains hce⟩
  · intro M e hcnt
    exact MPool.remove_count_one hcnt
  · intro S hS e hc
    have hI := reachS_sinv hS
    obtain ⟨p, hp, hpk, -, hget, -⟩ := SA.sinv_slot_of_contains hI hc
    refine ⟨SA.sremove_fst hc, ?_⟩
    exact SA.sremove_of_not_contains (SA.sremove_scontains_self hI hc hp hpk hget)
  · intro P e hc
    exact DPool.remove_of_not_contains hc
  · intro M e hc
    exact MPool.mremove_of_not_contains hc
  · intro S e hc
    exact SA.sremove_of_not_contains hc

theorem c8PoolW_reach : ReachD c8PoolW := by
  apply ReachD.emplace 7 42
  · exact ReachD.empty
  · norm_num
  · intro m hm
    simp [DPool.empty, SA.emptySparse] at hm

theorem c8SparseW_reach : ReachS c8SparseW := by
  apply ReachS.emplace 1
  · exact ReachS.empty
  · norm_num
  · intro m hm
    simp [SA.emptySparse] at hm

theorem c8_remove_twice_witness :
    ((DPool.remove c8PoolW 7).1 = true ∧
     DPool.remove (DPool.remove c8PoolW 7).2 7 = (false, (DPool.remove c8PoolW 7).2)) ∧
    ((MPool.remove (MPool.emplace MPool.empty 1 10) 1).1 = true ∧
     MPool.remove (MPool.remove (MPool.emplace MPool.empty 1 10) 1).2 1 =
       (false, (MPool.remove (MPool.emplace MPool.empty 1 10) 1).2)) ∧
    ((SA.sremove c8SparseW 1).1 = true ∧
     SA.sremove (SA.sremove c8SparseW 1).2 1 = (false, (SA.sremove c8SparseW 1).2)) :=
  ⟨c8_remove_twice.1 c8PoolW c8PoolW_reach 7 (by decide),
   c8_remove_twice.2.1 (MPool.emplace MPool.empty 1 10) 1 (by decide),
   c8_remove_twice.2.2.1 c8SparseW c8SparseW_reach 1 (by decide)⟩

/--
C8 counterexample: with the documented precondition `!contains(e)` on
emplace alone, an entity emplaced once (4294967298 = construct(2,1),
emplaced while 2 = construct(2,0) shadowed the shared sparse slot) can be
removed "successfully" twice: both calls return true, contradicting the
claimed true-then-false behaviour.
-/
theorem c8_counterexample :
    (DPool.remove
      ((DPool.remove
        (DPool.emplace (DPool.emplace (DPool.emplace DPool.empty 5 10) 2 20)
          4294967298 30) 5).2) 4294967298).1 = true ∧
    (DPool.remove
      ((DPool.remove
        ((DPool.remove
          (DPool.emplace (DPool.emplace (DPool.emplace DPool.empty 5 10) 2 20)
            4294967298 30) 5).2) 4294967298).2) 4294967298).1 = true := by
  decide

/--
C5: `sparse_array::contains(e)` returns false exactly when the sparse page
for `index(e)` is unallocated, or the slot holds the null sentinel (index
field all-ones), or the decoded packed position is out of bounds, or
`packed[pos]` is not bit-identical to `e`; and true exactly when none of
these hold, i.e. `packed[pos] == e`.
-/
theorem c5_contains_case_analysis (s : SA.Sparse) (e : Nat) :
    SA.scontains s e = scontainsSpec s e := by
  unfold SA.scontains scontainsSpec
  cases hm : SA.sparse_ptr s e with
  | none => rfl
  | some sv =>
    dsimp only
    by_cases h1 : Ent64.to_entity sv = Ent64.entity_mask
    · rw [(SA.isNullE_iff sv).2 h1, if_pos h1]
      simp
    · rw [(SA.isNullE_false_iff sv).2 h1, if_neg h1]
      by_cases h2 : Ent64.to_entity sv < s.packed.length
      · rw [if_neg (by simpa using h2)]
        simp [h2]
      · rw [if_pos (by simpa using h2)]
        simp [h2]

/--
C7: emplacing a single entity into an empty sparse set allocates exactly
one page, the page containing `index(e)`; every page slot below it stays
unallocated (`nullptr`), and the fresh page is filled with the null
sentinel everywhere except the entity's own slot, which receives the
packed position `construct(0, 0)`.
-/
theorem c7_page_laziness (e : Nat) :
    (SA.semplace SA.emptySparse e).packed = [e] ∧
    (SA.semplace SA.emptySparse e).sparse.length = SA.bucketOf e + 1 ∧
    (∀ k, k < SA.bucketOf e →
      (SA.semplace SA.emptySparse e).sparse.getD k none = none) ∧
    (∃ pg, (SA.semplace SA.emptySparse e).sparse.getD (SA.bucketOf e) none = some pg ∧
      pg.length = SA.pageSize ∧
      pg.getD (SA.offOf e) 0 = Ent64.construct 0 0 ∧
      (∀ j, j < SA.pageSize → j ≠ SA.offOf e → pg.getD j 0 = SA.nullE)) := by
  have hsp : (SA.semplace SA.emptySparse e).sparse =
      (List.replicate (SA.bucketOf e + 1) (none : Option (List Nat))).set
        (SA.bucketOf e)
        (some ((List.replicate SA.pageSize SA.nullE).set (SA.offOf e)
          (Ent64.construct 0 0))) := by
    show (SA.assure_write SA.emptySparse e (Ent64.construct 0 0)).sparse = _
    unfold SA.assure_write SA.emptySparse
    simp
  refine ⟨rfl, ?_, ?_, ?_⟩
  · rw [hsp, List.length_set, List.length_replicate]
  · intro k hk
    rw [hsp, List.getD_eq_getElem?_getD, List.getElem?_set_ne (by omega),
      List.getElem?_replicate, if_pos (by omega)]
    rfl
  · refine ⟨(List.replicate SA.pageSize SA.nullE).set (SA.offOf e)
      (Ent64.construct 0 0), ?_, ?_, ?_, ?_⟩
    · rw [hsp, List.getD_eq_getElem?_getD,
        List.getElem?_set_self (by rw [List.length_replicate]; omega)]
      rfl
    · rw [List.length_set, List.length_replicate]
    · rw [List.getD_eq_getElem?_getD, List.getElem?_set_self
        (by rw [List.length_replicate]
            exact Nat.lt_of_lt_of_le (SA.offOf_lt e) (by norm_num [SA.pageSize]))]
      rfl
    · intro j hj hje
      rw [List.getD_eq_getElem?_getD, List.getElem?_set_ne (fun hh => hje hh.symm),
        List.getElem?_replicate, if_pos hj]
      rfl

/--
C10: `MemoryOptimizedComponentPool::emplace` performs no duplicate check
and never touches the sparse pages (the inherited sparse table is left
untouched by emplace); after emplacing the same entity `e` twice with
values `v1` then `v2`, the packed array holds the two entries `[e, e]`,
`contains(e)` is true, and a single `remove(e)` returns true while
`contains(e)` remains true (one duplicate entry survives).
-/
theorem c10_memory_optimized_duplicates :
    (∀ (M : MPool) (e v : Nat),
      (MPool.emplace M e v).sparse = M.sparse ∧
      (MPool.emplace M e v).packed = M.packed ++ [e]) ∧
    (∀ e v1 v2 : Nat,
      (MPool.emplace (MPool.emplace MPool.empty e v1) e v2).packed = [e, e] ∧
      MPool.mcontains (MPool.emplace (MPool.emplace MPool.empty e v1) e v2) e
        = true ∧
      (MPool.remove (MPool.emplace (MPool.emplace MPool.empty e v1) e v2) e).1
        = true ∧
      MPool.mcontains
        (MPool.remove (MPool.emplace (MPool.emplace MPool.empty e v1) e v2) e).2
        e = true) := by
  constructor
  · intro M e v
    exact ⟨rfl, rfl⟩
  · intro e v1 v2
    have hpk : (MPool.emplace (MPool.emplace MPool.empty e v1) e v2).packed
        = [e, e] := rfl
    have hc : MPool.mcontains (MPool.emplace (MPool.emplace MPool.empty e v1) e v2) e
        = true := by
      rw [MPool.mcontains_iff, hpk]
      simp
    have hre := MPool.mremove_eq hc
    have hidx : MPool.get_index (MPool.emplace (MPool.emplace MPool.empty e v1) e v2) e
        = 0 := by
      unfold MPool.get_index
      rw [hpk]
      simp [List.findIdx_cons]
    refine ⟨hpk, hc, by rw [hre], ?_⟩
    rw [hre]
    rw [MPool.mcontains_iff]
    show e ∈ (((MPool.emplace (MPool.emplace MPool.empty e v1) e v2).packed.set _ _).set _ _).dropLast
    rw [hidx, hpk]
    simp
namespace WorldM

theorem create_pool (w : WorldM) : (Create w).2.pool = w.pool := by
  unfold Create
  split <;> rfl

theorem destroy_fid (w : WorldM) (e : Nat) :
    (Destroy w e).free_entity_id = Ent64.to_entity e := rfl

theorem destroy_fnum (w : WorldM) (e : Nat) :
    (Destroy w e).free_entity_num = w.free_entity_num + 1 := rfl
end WorldM

theorem next_version64_to_entity (v : Nat) :
    Ent64.to_entity (Ent64.next_version v) = Ent64.to_entity v := by
  rw [Ent64.next_version, Ent64.to_entity_construct,
    Nat.mod_eq_of_lt (Ent64.to_entity_lt v)]

theorem next_version64_to_version_ne (v : Nat) :
    Ent64.to_version (Ent64.next_version v) ≠ Ent64.to_version v := by
  rw [Ent64.next_version, Ent64.to_version_construct]
  have hV := Ent64.to_version_lt v
  have hm : Ent64.version_mask = 4294967295 := by norm_num [Ent64.version_mask]
  rw [hm]
  by_cases hA : Ent64.to_version v + 1 = 2 ^ 32
  · have h1 : (Ent64.to_version v + 1) % 2 ^ 32 = 0 := by omega
    rw [h1]
    have h2 : ((0 + if (0:Nat) = 4294967295 then 1 else 0) % 2 ^ 32) % 2 ^ 32 = 0 := by
      norm_num
    rw [h2]
    omega
  · have h1 : (Ent64.to_version v + 1) % 2 ^ 32 = Ent64.to_version v + 1 := by omega
    rw [h1]
    split_ifs with h <;> intro hh <;> omega

theorem scontains_semplace_self {s : SA.Sparse} (hw : SA.PagesWF s)
    (hlen : s.packed.length < Ent64.entity_mask) (e : Nat) :
    SA.scontains (SA.semplace s e) e = true := by
  have hmlt : Ent64.entity_mask < 2 ^ 32 := by norm_num [Ent64.entity_mask]
  rw [SA.scontains_iff]
  refine ⟨Ent64.construct s.packed.length 0, ?_, ?_, ?_, ?_⟩
  · rw [SA.semplace_sparse_ptr]
    exact SA.sparse_ptr_assure_write_same hw rfl
  · rw [construct_zero_to_entity (by omega)]
    omega
  · rw [construct_zero_to_entity (by omega), SA.semplace_packed,
      List.length_append, List.length_singleton]
    omega
  · rw [construct_zero_to_entity (by omega), SA.semplace_packed, getD_append_last]

theorem get_emplace_self {P : DPool} (hw : SA.PagesWF P.s)
    (hlen : P.s.packed.length < Ent64.entity_mask)
    (hcl : P.components.length = P.s.packed.length) (e v : Nat) :
    DPool.get (DPool.emplace P e v) e = v := by
  have hmlt : Ent64.entity_mask < 2 ^ 32 := by norm_num [Ent64.entity_mask]
  have hptr : SA.sparse_ptr (SA.semplace P.s e) e =
      some (Ent64.construct P.s.packed.length 0) := by
    rw [SA.semplace_sparse_ptr]
    exact SA.sparse_ptr_assure_write_same hw rfl
  unfold DPool.get
  rw [DPool.emplace_s, SA.sparse_get_of_ptr hptr,
    construct_zero_to_entity (by omega), DPool.emplace_components, ← hcl,
    getD_append_last]

theorem WorldM.create_fst_of_pos {w : WorldM} (h : w.free_entity_num ≠ 0) :
    (WorldM.Create w).1 = Ent64.construct w.free_entity_id
      (Ent64.to_version (w.entityList.getD w.free_entity_id 0)) := by
  unfold WorldM.Create
  rw [if_neg h]

theorem WorldM.create_fst_of_zero {w : WorldM} (h : w.free_entity_num = 0) :
    (WorldM.Create w).1 = Ent64.construct w.entityList.length 0 := by
  unfold WorldM.Create
  rw [if_pos h]

theorem WorldM.destroy_entityList (w : WorldM) (e : Nat) :
    (WorldM.Destroy w e).entityList =
      (if 0 < w.free_entity_num
       then w.entityList.set (Ent64.to_entity e)
         (Ent64.construct w.free_entity_id (Ent64.to_version e))
       else w.entityList).set (Ent64.to_entity e)
        (Ent64.next_version
          ((if 0 < w.free_entity_num
            then w.entityList.set (Ent64.to_entity e)
              (Ent64.construct w.free_entity_id (Ent64.to_version e))
            else w.entityList).getD (Ent64.to_entity e) 0)) := rfl

/--
C3: after `Destroy(e)` on a live entity `e`, the next `Create()` reuses
`index(e)`: it returns `e2` with `to_entity(e2) = to_entity(e)`,
`to_version(e2) ≠ to_version(e)`, and `is_same(e, e2)` false.
-/
theorem c3_generation_invalidation (w : WorldM) (e : Nat)
    (hidx : Ent64.to_entity e < w.entityList.length)
    (hslot : w.entityList.getD (Ent64.to_entity e) 0 = e) :
    Ent64.to_entity (WorldM.Create (WorldM.Destroy w e)).1 = Ent64.to_entity e ∧
    Ent64.to_version (WorldM.Create (WorldM.Destroy w e)).1 ≠ Ent64.to_version e ∧
    Ent64.is_same e (WorldM.Create (WorldM.Destroy w e)).1 = false := by
  have hidx32 := Ent64.to_entity_lt e
  set el1 := (if 0 < w.free_entity_num
      then w.entityList.set (Ent64.to_entity e)
        (Ent64.construct w.free_entity_id (Ent64.to_version e))
      else w.entityList) with hel1
  have hel1len : el1.length = w.entityList.length := by
    rw [hel1]
    split
    · rw [List.length_set]
    · rfl
  have hel1v : Ent64.to_version (el1.getD (Ent64.to_entity e) 0) =
      Ent64.to_version e := by
    rw [hel1]
    split
    · rw [List.getD_eq_getElem?_getD, List.getElem?_set_self hidx,
        Option.getD_some, Ent64.to_version_construct,
        Nat.mod_eq_of_lt (Ent64.to_version_lt e)]
    · rw [hslot]
  have hfnum : (WorldM.Destroy w e).free_entity_num ≠ 0 := by
    rw [WorldM.destroy_fnum]
    omega
  have he2 := WorldM.create_fst_of_pos hfnum
  rw [WorldM.destroy_fid, WorldM.destroy_entityList, ← hel1] at he2
  have hlook : (el1.set (Ent64.to_entity e)
      (Ent64.next_version (el1.getD (Ent64.to_entity e) 0))).getD
      (Ent64.to_entity e) 0 =
      Ent64.next_version (el1.getD (Ent64.to_entity e) 0) := by
    rw [List.getD_eq_getElem?_getD,
      List.getElem?_set_self (by rw [hel1len]; exact hidx), Option.getD_some]
  rw [hlook] at he2
  have hvne : Ent64.to_version
      (Ent64.next_version (el1.getD (Ent64.to_entity e) 0)) ≠
      Ent64.to_version e := by
    rw [← hel1v]
    exact next_version64_to_version_ne _
  have hent : Ent64.to_entity (WorldM.Create (WorldM.Destroy w e)).1 =
      Ent64.to_entity e := by
    rw [he2, Ent64.to_entity_construct, Nat.mod_eq_of_lt hidx32]
  have hver : Ent64.to_version (WorldM.Create (WorldM.Destroy w e)).1 ≠
      Ent64.to_version e := by
    rw [he2, Ent64.to_version_construct,
      Nat.mod_eq_of_lt (Ent64.to_version_lt _)]
    exact hvne
  refine ⟨hent, hver, ?_⟩
  have hne : Ent64.to_integral e ≠
      Ent64.to_integral (WorldM.Create (WorldM.Destroy w e)).1 := by
    intro hh
    apply hver
    show (Ent64.to_integral _ >>> Ent64.length) % 2 ^ 32 =
      (Ent64.to_integral e >>> Ent64.length) % 2 ^ 32
    rw [hh]
  have hb : (Ent64.to_integral e ==
      Ent64.to_integral (WorldM.Create (WorldM.Destroy w e)).1) = false :=
    beq_eq_false_iff_ne.2 hne
  unfold Ent64.is_same
  rw [hb, Bool.and_false]

theorem c3_generation_invalidation_witness :
    Ent64.to_entity (WorldM.Create (WorldM.Destroy ⟨[0], 0, 0, DPool.empty⟩ 0)).1
      = Ent64.to_entity 0 ∧
    Ent64.to_version (WorldM.Create (WorldM.Destroy ⟨[0], 0, 0, DPool.empty⟩ 0)).1
      ≠ Ent64.to_version 0 ∧
    Ent64.is_same 0 (WorldM.Create (WorldM.Destroy ⟨[0], 0, 0, DPool.empty⟩ 0)).1
      = false :=
  c3_generation_invalidation ⟨[0], 0, 0, DPool.empty⟩ 0 (by decide) (by decide)

/--
C9: every entity returned by `World.Create()` is `is_valid` as long as the
number of entity slots allocated stays strictly below `entity_mask` (and
free-list heads point at allocated slots); when the entity list length
reaches `entity_mask`, the freshly appended identifier carries the invalid
index and `is_valid` on it is false.
-/
theorem c9_create_validity (w : WorldM) :
    (w.entityList.length < Ent64.entity_mask →
      (w.free_entity_num ≠ 0 → w.free_entity_id < w.entityList.length) →
      Ent64.is_valid (WorldM.Create w).1 = true) ∧
    (w.entityList.length = Ent64.entity_mask → w.free_entity_num = 0 →
      Ent64.is_valid (WorldM.Create w).1 = false) := by
  have hmask : Ent64.entity_mask = 4294967295 := by norm_num [Ent64.entity_mask]
  have hinv : Ent64.invalid = 4294967295 := by norm_num [Ent64.invalid]
  constructor
  · intro hlen hfid
    by_cases h0 : w.free_entity_num = 0
    · rw [WorldM.create_fst_of_zero h0]
      unfold Ent64.is_valid
      rw [Ent64.to_entity_construct, Nat.mod_eq_of_lt (by omega)]
      have hne : w.entityList.length ≠ Ent64.invalid := by omega
      simp [hne]
    · rw [WorldM.create_fst_of_pos h0]
      unfold Ent64.is_valid
      have hfl := hfid h0
      rw [Ent64.to_entity_construct, Nat.mod_eq_of_lt (by omega)]
      have hne : w.free_entity_id ≠ Ent64.invalid := by omega
      simp [hne]
  · intro hlen h0
    rw [WorldM.create_fst_of_zero h0]
    unfold Ent64.is_valid
    rw [Ent64.to_entity_construct, Nat.mod_eq_of_lt (by omega), hlen]
    simp [hmask, hinv]

theorem c9_create_validity_witness :
    Ent64.is_valid (WorldM.Create ⟨[], 0, 0, DPool.empty⟩).1 = true ∧
    Ent64.is_valid
      (WorldM.Create ⟨List.replicate 4294967295 0, 0, 0, DPool.empty⟩).1 = false :=
  ⟨(c9_create_validity ⟨[], 0, 0, DPool.empty⟩).1 (by norm_num [Ent64.entity_mask])
      (fun h => absurd rfl h),
   (c9_create_validity ⟨List.replicate 4294967295 0, 0, 0, DPool.empty⟩).2
      (by norm_num [List.length_replicate, Ent64.entity_mask]) rfl⟩

/--
C2: for an entity returned by `World.Create()` on a well-formed world (one
default pool whose members are live entities, free head not a member,
capacity below the index sentinel): `contains(e)` is false before
`emplace(e, v)` is called, and after `emplace(e, v)`, `contains(e)` is
true and `query(e)` equals `v`.
-/
theorem c2_roundtrip (w : WorldM)
    (hlen : w.entityList.length ≤ Ent64.entity_mask)
    (hfid : w.free_entity_num ≠ 0 → w.free_entity_id < w.entityList.length)
    (hlive : ∀ m ∈ w.pool.s.packed,
      Ent64.to_entity m < w.entityList.length ∧
      w.entityList.getD (Ent64.to_entity m) 0 = m ∧
      (w.free_entity_num ≠ 0 → Ent64.to_entity m ≠ w.free_entity_id))
    (hpw : SA.PagesWF w.pool.s)
    (hcap : w.pool.s.packed.length < Ent64.entity_mask)
    (hcl : w.pool.components.length = w.pool.s.packed.length) :
    WorldM.containsW (WorldM.Create w).2 (WorldM.Create w).1 = false ∧
    ∀ v, WorldM.containsW
        (WorldM.emplaceW (WorldM.Create w).2 (WorldM.Create w).1 v)
        (WorldM.Create w).1 = true ∧
      WorldM.queryW
        (WorldM.emplaceW (WorldM.Create w).2 (WorldM.Create w).1 v)
        (WorldM.Create w).1 = v := by
  have hmlt : Ent64.entity_mask < 2 ^ 32 := by norm_num [Ent64.entity_mask]
  have hpool2 : (WorldM.Create w).2.pool = w.pool := WorldM.create_pool w
  constructor
  · show DPool.dcontains (WorldM.Create w).2.pool (WorldM.Create w).1 = false
    rw [hpool2]
    cases hb : DPool.dcontains w.pool (WorldM.Create w).1 with
    | false => rfl
    | true =>
      exfalso
      have hmem : (WorldM.Create w).1 ∈ w.pool.s.packed := by
        rcases (SA.scontains_iff _ _).1 hb with ⟨sv, -, -, hlt, hpk⟩
        rw [← hpk, SA.getD_eq_getElem _ _ hlt]
        exact List.getElem_mem _
      obtain ⟨hm1, -, hm3⟩ := hlive _ hmem
      by_cases h0 : w.free_entity_num = 0
      · rw [WorldM.create_fst_of_zero h0, Ent64.to_entity_construct,
          Nat.mod_eq_of_lt (by omega)] at hm1
        omega
      · have hfl := hfid h0
        rw [WorldM.create_fst_of_pos h0, Ent64.to_entity_construct,
          Nat.mod_eq_of_lt (by omega)] at hm3
        exact (hm3 h0) rfl
  · intro v
    constructor
    · show DPool.dcontains
        (WorldM.emplaceW (WorldM.Create w).2 (WorldM.Create w).1 v).pool
        (WorldM.Create w).1 = true
      show SA.scontains
        (SA.semplace (WorldM.Create w).2.pool.s (WorldM.Create w).1)
        (WorldM.Create w).1 = true
      rw [hpool2]
      exact scontains_semplace_self hpw hcap _
    · show DPool.get
        (DPool.emplace (WorldM.Create w).2.pool (WorldM.Create w).1 v)
        (WorldM.Create w).1 = v
      rw [hpool2]
      exact get_emplace_self hpw hcap hcl _ v

theorem c2_roundtrip_witness :
    WorldM.containsW (WorldM.Create ⟨[], 0, 0, DPool.empty⟩).2
      (WorldM.Create ⟨[], 0, 0, DPool.empty⟩).1 = false ∧
    WorldM.containsW
      (WorldM.emplaceW (WorldM.Create ⟨[], 0, 0, DPool.empty⟩).2
        (WorldM.Create ⟨[], 0, 0, DPool.empty⟩).1 7)
      (WorldM.Create ⟨[], 0, 0, DPool.empty⟩).1 = true ∧
    WorldM.queryW
      (WorldM.emplaceW (WorldM.Create ⟨[], 0, 0, DPool.empty⟩).2
        (WorldM.Create ⟨[], 0, 0, DPool.empty⟩).1 7)
      (WorldM.Create ⟨[], 0, 0, DPool.empty⟩).1 = 7 :=
  ⟨(c2_roundtrip ⟨[], 0, 0, DPool.empty⟩ (by norm_num [Ent64.entity_mask])
      (fun h => absurd rfl h) (by intro m hm; simp [DPool.empty, SA.emptySparse] at hm)
      SA.pagesWF_empty (by norm_num [DPool.empty, SA.emptySparse, Ent64.entity_mask])
      rfl).1,
   ((c2_roundtrip ⟨[], 0, 0, DPool.empty⟩ (by norm_num [Ent64.entity_mask])
      (fun h => absurd rfl h) (by intro m hm; simp [DPool.empty, SA.emptySparse] at hm)
      SA.pagesWF_empty (by norm_num [DPool.empty, SA.emptySparse, Ent64.entity_mask])
      rfl).2 7).1,
   ((c2_roundtrip ⟨[], 0, 0, DPool.empty⟩ (by norm_num [Ent64.entity_mask])
      (fun h => absurd rfl h) (by intro m hm; simp [DPool.empty, SA.emptySparse] at hm)
      SA.pagesWF_empty (by norm_num [DPool.empty, SA.emptySparse, Ent64.entity_mask])
      rfl).2 7).2⟩

/-- The left fold `acc, i ↦ if f i < f acc then i else acc` returns its
initial value or a list element, never exceeds `f` of the initial value,
and minimises `f` over the list (first minimum wins, ties keep the
accumulator). -/
theorem foldl_argmin (f : Nat → Nat) (l : List Nat) (a : Nat) :
    (l.foldl (fun acc i => if f i < f acc then i else acc) a = a ∨
      l.foldl (fun acc i => if f i < f acc then i else acc) a ∈ l) ∧
    f (l.foldl (fun acc i => if f i < f acc then i else acc) a) ≤ f a ∧
    (∀ i ∈ l, f (l.foldl (fun acc i => if f i < f acc then i else acc) a) ≤ f i) := by
  induction l generalizing a with
  | nil =>
    refine ⟨Or.inl rfl, Nat.le_refl _, ?_⟩
    intro i hi
    cases hi
  | cons x xs ih =>
    rw [List.foldl_cons]
    obtain ⟨h1, h2, h3⟩ := ih (if f x < f a then x else a)
    have hfb : f (if f x < f a then x else a) ≤ f a ∧
        f (if f x < f a then x else a) ≤ f x := by
      by_cases hx : f x < f a
      · rw [if_pos hx]
        omega
      · rw [if_neg hx]
        omega
    refine ⟨?_, le_trans h2 hfb.1, ?_⟩
    · rcases h1 with h | h
      · by_cases hx : f x < f a
        · rw [if_pos hx] at h ⊢
          rw [h]
          exact Or.inr (List.mem_cons_self x xs)
        · rw [if_neg hx] at h ⊢
          exact Or.inl h
      · exact Or.inr (List.mem_cons_of_mem x h)
    · intro i hi
      rcases List.mem_cons.1 hi with rfl | hm
      · exact le_trans h2 hfb.2
      · exact h3 i hm

theorem ViewM.driverIdx_lt (V : ViewM) (h : 0 < (ViewM.pools V).length) :
    ViewM.driverIdx V < (ViewM.pools V).length := by
  rcases (foldl_argmin (fun j => DPool.size ((ViewM.pools V).getD j DPool.empty))
      (List.range (ViewM.pools V).length) 0).1 with h0 | hm
  · exact lt_of_eq_of_lt h0 h
  · exact List.mem_range.1 hm

theorem ViewM.driver_min (V : ViewM) (i : Nat) (hi : i < (ViewM.pools V).length) :
    DPool.size (ViewM.driver V) ≤ DPool.size ((ViewM.pools V).getD i DPool.empty) :=
  (foldl_argmin (fun j => DPool.size ((ViewM.pools V).getD j DPool.empty))
      (List.range (ViewM.pools V).length) 0).2.2 i (List.mem_range.2 hi)
namespace SA

/-- Under the sparse-set invariant, every packed entry is contained (its
sparse slot points back at it), as long as no packed position reaches the
index sentinel. -/
theorem scontains_of_mem {s : Sparse} (h : SInv s)
    (hcap : s.packed.length ≤ Ent64.entity_mask) {e : Nat}
    (he : e ∈ s.packed) : scontains s e = true := by
  rcases List.mem_iff_getElem.1 he with ⟨i, hi, hei⟩
  rw [scontains_iff]
  have hslot := h.2.2.2 i hi
  rw [getD_eq_getElem _ _ hi, hei] at hslot
  have hilt : i < 2 ^ 32 := lt_of_lt_of_le hi (sinv_len_le h)
  have hmask : Ent64.entity_mask = 2 ^ 32 - 1 := Ent64.entity_mask_eq
  refine ⟨Ent64.construct i 0, hslot, ?_, ?_, ?_⟩
  · rw [construct_zero_to_entity hilt]
    omega
  · rw [construct_zero_to_entity hilt]
    exact hi
  · rw [construct_zero_to_entity hilt, getD_eq_getElem _ _ hi, hei]

/-- A contained entity is a packed entry (no invariant needed: `contains`
checks `packed[pos] == e`). -/
theorem mem_of_scontains {s : Sparse} {e : Nat} (hc : scontains s e = true) :
    e ∈ s.packed := by
  rcases (scontains_iff s e).1 hc with ⟨sv, -, -, hlt, hpk⟩
  rw [← hpk, getD_eq_getElem _ _ hlt]
  exact List.getElem_mem _

/-- Distinct index fields make the packed array duplicate-free. -/
theorem sinv_packed_nodup {s : Sparse} (h : SInv s) : s.packed.Nodup := by
  rw [List.Nodup, List.pairwise_iff_getElem]
  intro i j hi hj hij
  have hne := h.2.2.1 i j hij hj
  rw [getD_eq_getElem _ _ (by omega), getD_eq_getElem _ _ hj] at hne
  exact fun he => hne (congrArg Ent64.to_entity he)

/-- Bounded-quantifier form of the pairwise-distinct-index condition,
convenient for deciding it on concrete pools. -/
theorem distinct_indices_of_ball (l : List Nat)
    (h : ∀ j, j < l.length → ∀ i, i < j →
      Ent64.to_entity (l.getD i 0) ≠ Ent64.to_entity (l.getD j 0)) :
    ∀ i j, i < j → j < l.length →
      Ent64.to_entity (l.getD i 0) ≠ Ent64.to_entity (l.getD j 0) :=
  fun i j hij hj => h j hj i hij
end SA

/--
C4: over well-formed default pools (sparse-set invariant, sizes below the
index sentinel) with at least one required pool, `View::each` visits
exactly the entities that are members of every required pool and every
filter pool — each such entity exactly once and no other entity — in the
packed order of the driver pool, and the driver chosen at construction has
minimum `size()` among all required and filter pools.
-/
theorem c4_view_intersection (V : ViewM)
    (hne : V.containers_ ≠ [])
    (hinv : ∀ p ∈ ViewM.pools V, DPool.DInv p)
    (hcap : ∀ p ∈ ViewM.pools V, DPool.size p ≤ Ent64.entity_mask) :
    ViewM.eachList V
      = (ViewM.driver V).s.packed.filter
          (fun x => (ViewM.pools V).all (fun p => DPool.dcontains p x)) ∧
    (∀ x, x ∈ ViewM.eachList V ↔ ∀ p ∈ ViewM.pools V, DPool.dcontains p x = true) ∧
    (∀ x, (∀ p ∈ ViewM.pools V, DPool.dcontains p x = true) →
      (ViewM.eachList V).count x = 1) ∧
    (∀ p ∈ ViewM.pools V, DPool.size (ViewM.driver V) ≤ DPool.size p) := by
  have hnc : 0 < V.containers_.length := List.length_pos.2 hne
  have hlen0 : 0 < (ViewM.pools V).length := by
    have : (ViewM.pools V).length = V.containers_.length + V.filters_.length := by
      unfold ViewM.pools
      rw [List.length_append]
    omega
  have hdlt : ViewM.driverIdx V < (ViewM.pools V).length := ViewM.driverIdx_lt V hlen0
  have hdrv : ViewM.driver V = (ViewM.pools V).getD (ViewM.driverIdx V) DPool.empty :=
    rfl
  have hdmem : ViewM.driver V ∈ ViewM.pools V := by
    rw [hdrv, SA.getD_eq_getElem _ _ hdlt]
    exact List.getElem_mem _
  have hdinv := hinv _ hdmem
  have hdcap := hcap _ hdmem
  have hplen : (ViewM.pools V).length = V.containers_.length + V.filters_.length := by
    unfold ViewM.pools
    rw [List.length_append]
  have hmain : ViewM.eachList V
      = (ViewM.driver V).s.packed.filter
          (fun x => (ViewM.pools V).all (fun p => DPool.dcontains p x)) := by
    unfold ViewM.eachList
    by_cases hcase : ViewM.driverIdx V < V.containers_.length
    · rw [if_pos hcase]
      have hdc : ViewM.driver V = V.containers_.getD (ViewM.driverIdx V) DPool.empty := by
        rw [hdrv]
        show (V.containers_ ++ V.filters_).getD _ _ = _
        exact List.getD_append _ _ _ _ hcase
      apply List.filter_congr
      intro x hx
      have hxc : DPool.dcontains (ViewM.driver V) x = true :=
        SA.scontains_of_mem hdinv.1 hdcap hx
      rw [Bool.eq_iff_iff]
      simp only [Bool.and_eq_true, List.all_eq_true, List.mem_range, Bool.or_eq_true,
        beq_iff_eq]
      constructor
      · rintro ⟨h1, h2⟩ p hp
        have hp2 : p ∈ V.containers_ ++ V.filters_ := hp
        rcases List.mem_append.1 hp2 with hp3 | hp3
        · rcases List.mem_iff_getElem.1 hp3 with ⟨i, hi, rfl⟩
          rcases h1 i hi with hEq | hcont
          · have hgd : V.containers_.getD i DPool.empty = ViewM.driver V := by
              rw [hdc, hEq]
            rw [← SA.getD_eq_getElem V.containers_ DPool.empty hi, hgd]
            exact hxc
          · rw [← SA.getD_eq_getElem V.containers_ DPool.empty hi]
            exact hcont
        · exact h2 p hp3
      · intro hAll
        constructor
        · intro i hi
          refine Or.inr ?_
          refine hAll _ ?_
          show _ ∈ V.containers_ ++ V.filters_
          apply List.mem_append_left
          rw [SA.getD_eq_getElem _ _ hi]
          exact List.getElem_mem _
        · intro f hf
          refine hAll f ?_
          show _ ∈ V.containers_ ++ V.filters_
          exact List.mem_append_right _ hf
    · rw [if_neg hcase]
      have hge : V.containers_.length ≤ ViewM.driverIdx V := le_of_not_lt hcase
      have hdf : ViewM.driver V
          = V.filters_.getD (ViewM.driverIdx V - V.containers_.length) DPool.empty := by
        rw [hdrv]
        show (V.containers_ ++ V.filters_).getD _ _ = _
        exact List.getD_append_right _ _ _ _ hge
      apply List.filter_congr
      intro x hx
      have hxc : DPool.dcontains (ViewM.driver V) x = true :=
        SA.scontains_of_mem hdinv.1 hdcap hx
      rw [Bool.eq_iff_iff]
      simp only [Bool.and_eq_true, List.all_eq_true, List.mem_range, Bool.or_eq_true,
        beq_iff_eq]
      constructor
      · rintro ⟨h1, h2⟩ p hp
        have hp2 : p ∈ V.containers_ ++ V.filters_ := hp
        rcases List.mem_append.1 hp2 with hp3 | hp3
        · rcases List.mem_iff_getElem.1 hp3 with ⟨i, hi, rfl⟩
          rw [← SA.getD_eq_getElem V.containers_ DPool.empty hi]
          exact h1 _ (by rw [SA.getD_eq_getElem V.containers_ DPool.empty hi]; exact hp3)
        · rcases List.mem_iff_getElem.1 hp3 with ⟨j, hj, rfl⟩
          rcases h2 j hj with hEq | hcont
          · have hgd : V.filters_.getD j DPool.empty = ViewM.driver V := by
              rw [hdf]
              congr 1
              omega
            rw [← SA.getD_eq_getElem V.filters_ DPool.empty hj, hgd]
            exact hxc
          · rw [← SA.getD_eq_getElem V.filters_ DPool.empty hj]
            exact hcont
      · intro hAll
        constructor
        · intro c hc
          refine hAll c ?_
          show _ ∈ V.containers_ ++ V.filters_
          exact List.mem_append_left _ hc
        · intro j hj
          refine Or.inr ?_
          refine hAll _ ?_
          show _ ∈ V.containers_ ++ V.filters_
          apply List.mem_append_right
          rw [SA.getD_eq_getElem _ _ hj]
          exact List.getElem_mem _
  have hiff : ∀ x, x ∈ ViewM.eachList V ↔
      ∀ p ∈ ViewM.pools V, DPool.dcontains p x = true := by
    intro x
    rw [hmain]
    constructor
    · intro hx
      rcases List.mem_filter.1 hx with ⟨-, hq⟩
      intro p hp
      exact List.all_eq_true.1 hq p hp
    · intro hAll
      refine List.mem_filter.2 ⟨?_, ?_⟩
      · exact SA.mem_of_scontains (hAll _ hdmem)
      · exact List.all_eq_true.2 hAll
  refine ⟨hmain, hiff, ?_, ?_⟩
  · intro x hAll
    have hnd : (ViewM.eachList V).Nodup := by
      rw [hmain]
      exact List.Nodup.filter _ (SA.sinv_packed_nodup hdinv.1)
    exact List.count_eq_one_of_mem hnd ((hiff x).2 hAll)
  · intro p hp
    have hp2 : p ∈ V.containers_ ++ V.filters_ := hp
    rcases List.mem_iff_getElem.1 hp2 with ⟨i, hi, rfl⟩
    have hi2 : i < (ViewM.pools V).length := by
      rw [hplen]
      rw [List.length_append] at hi
      omega
    have hmin := ViewM.driver_min V i hi2
    rwa [SA.getD_eq_getElem _ _ hi2] at hmin

theorem c4A_reach : ReachD c4A := by
  unfold c4A
  apply ReachD.emplace
  apply ReachD.emplace
  apply ReachD.emplace
  apply ReachD.emplace
  apply ReachD.emplace
  exact ReachD.empty
  all_goals decide

theorem c4B_reach : ReachD c4B := by
  unfold c4B
  apply ReachD.emplace
  apply ReachD.emplace
  apply ReachD.emplace
  exact ReachD.empty
  all_goals decide

theorem c4C_reach : ReachD c4C := by
  unfold c4C
  apply ReachD.emplace
  apply ReachD.emplace
  apply ReachD.emplace
  exact ReachD.empty
  all_goals decide

theorem c4pools_dinv : ∀ p ∈ ViewM.pools c4ViewW, DPool.DInv p := by
  intro p hp
  have hp2 : p ∈ [c4A, c4B, c4C] := by
    have : ViewM.pools c4ViewW = [c4A, c4B, c4C] := by
      unfold ViewM.pools c4ViewW
      rfl
    rwa [this] at hp
  rcases List.mem_cons.1 hp2 with rfl | hp3
  · exact reachD_dinv c4A_reach
  rcases List.mem_cons.1 hp3 with rfl | hp4
  · exact reachD_dinv c4B_reach
  rcases List.mem_cons.1 hp4 with rfl | hp5
  · exact reachD_dinv c4C_reach
  cases hp5

theorem c4_view_intersection_witness :
    ViewM.eachList c4ViewW = [3, 4] ∧
    3 ∈ ViewM.eachList c4ViewW ∧
    (ViewM.eachList c4ViewW).count 4 = 1 ∧
    DPool.size (ViewM.driver c4ViewW) ≤ DPool.size c4A :=
  ⟨(c4_view_intersection c4ViewW (fun h => List.noConfusion h) c4pools_dinv
      (by decide)).1.trans (by decide),
   ((c4_view_intersection c4ViewW (fun h => List.noConfusion h) c4pools_dinv
      (by decide)).2.1 3).2 (by decide),
   (c4_view_intersection c4ViewW (fun h => List.noConfusion h) c4pools_dinv
      (by decide)).2.2.1 4 (by decide),
   (c4_view_intersection c4ViewW (fun h => List.noConfusion h) c4pools_dinv
      (by decide)).2.2.2 c4A (List.mem_cons_self _ _)⟩
